import Mathlib

/-!
Verification development for `reduct` (src/reduct/reduct.py), a tool that
straces a command and copies every file the command touched from a source
directory tree into a destination directory tree.

The development shallowly embeds the Python program over an explicit
filesystem state:

* Python string/path primitives (`str.split`, `str.find`, slicing,
  `os.path.dirname`, `os.path.basename`, `os.path.join`, `os.path.relpath`,
  `lstrip`) are translated character-for-character on `String`
  (`List Char` underneath).
* The host filesystem is a finite map from absolute path strings to
  entries (regular file with content, or symbolic link with target),
  plus the set of directories known to exist.  `os.path.realpath` is
  idealized as: make absolute against the cwd, then follow the chain of
  symbolic links at the final component (directory components of the
  modelled scenarios contain no symlinks); `os.path.isfile` follows
  links, `os.path.islink` does not, `os.makedirs` records the directory
  and all its ancestors, `shutil.copy2` copies the byte content.
* The functions `copy_full`, `make_link`, `handle_file` and the trace
  processing loop of `reduct` are transcribed line by line; the
  recursion `make_link` → `handle_file` gets an explicit fuel argument.
-/

namespace Reduct

/-- Whitespace characters relevant to Python `str.split()` on strace output. -/
def isWs (c : Char) : Bool := c == ' ' || c == '\t' || c == '\n' || c == '\r'

/-- Tokenizer used to model Python `str.split()` (no argument): splits on runs
of whitespace and drops empty tokens.  `acc` is the current token reversed. -/
def splitTokens (p : Char → Bool) : List Char → List Char → List (List Char)
  | [], acc => if acc = [] then [] else [acc.reverse]
  | c :: cs, acc =>
    if p c then
      if acc = [] then splitTokens p cs []
      else acc.reverse :: splitTokens p cs []
    else splitTokens p cs (c :: acc)

/-- Python `line.split()`. -/
def pySplitWs (s : String) : List String :=
  (splitTokens isWs s.data []).map (fun l => String.mk l)

/-- First index of character `c` in `l`, if present. -/
def idxOf? (c : Char) : List Char → Option Nat
  | [] => none
  | d :: ds => if d == c then some 0 else (idxOf? c ds).map (fun n => n + 1)

/-- Python `s.find(c)`: index of the first occurrence, `-1` if absent. -/
def pyFind (s : String) (c : Char) : Int :=
  match idxOf? c s.data with
  | some n => (n : Int)
  | none => -1

/-- Python slice `s[start:stop]` for a natural `start` and a possibly
negative `stop` (negative indices count from the end, then are clamped). -/
def pySlice (s : String) (start : Nat) (stop : Int) : String :=
  let n : Int := (s.data.length : Int)
  let sp : Int := if stop < 0 then stop + n else stop
  let sp' : Nat := (max sp 0).toNat
  String.mk ((s.data.take (min sp' s.data.length)).drop start)

/-- Python `s[n:]` (character count). -/
def strDrop (s : String) (n : Nat) : String := String.mk (s.data.drop n)

/-- Python `s.startswith(p)`. -/
def strStartsWith (s p : String) : Bool := p.data.isPrefixOf s.data

/-- Whether the last character of `s` is a slash. -/
def strEndsSlash (s : String) : Bool := s.data.getLast? == some '/'

/-- Python `s.lstrip("/")`. -/
def lstripSlash (s : String) : String := String.mk (s.data.dropWhile (fun c => c == '/'))

/-- Remove trailing slashes (Python `s.rstrip("/")`). -/
def stripTrailingSlashes (l : List Char) : List Char :=
  (l.reverse.dropWhile (fun c => c == '/')).reverse

/-- Python `os.path.split(p)`: split at the final slash; the head keeps
its trailing slashes only when it consists solely of slashes. -/
def pySplitPath (p : String) : String × String :=
  let rev := p.data.reverse
  let tailRev := rev.takeWhile (fun c => !(c == '/'))
  let headRevAll := rev.dropWhile (fun c => !(c == '/'))
  let head :=
    if headRevAll.all (fun c => c == '/') then headRevAll.reverse
    else stripTrailingSlashes headRevAll.reverse
  (String.mk head, String.mk tailRev.reverse)

/-- Python `os.path.dirname`. -/
def pyDirname (p : String) : String := (pySplitPath p).1

/-- Python `os.path.basename` (= `os.path.split(p)[-1]`). -/
def pyBasename (p : String) : String := (pySplitPath p).2

/-- Python `os.path.join(a, b)` for two operands. -/
def pyJoin (a b : String) : String :=
  if strStartsWith b "/" then b
  else if a = "" || strEndsSlash a then a ++ b
  else a ++ "/" ++ b

/-- Slash-separated components of a path, empty components dropped. -/
def pathComps (p : String) : List String :=
  (splitTokens (fun c => c == '/') p.data []).map (fun l => String.mk l)

/-- Length of the longest common prefix of two component lists. -/
def commonLen : List String → List String → Nat
  | a :: as, b :: bs => if a = b then commonLen as bs + 1 else 0
  | _, _ => 0

/-- Python `os.path.relpath(path, start)` for absolute inputs. -/
def pyRelpath (path start : String) : String :=
  let pc := pathComps path
  let sc := pathComps start
  let k := commonLen pc sc
  let segs := List.replicate (sc.length - k) ".." ++ pc.drop k
  match segs with
  | [] => "."
  | l => String.intercalate "/" l

/-- Python `" ".join(args)`. -/
def joinSpace (args : List String) : String := String.intercalate " " args

/-! ## Filesystem model -/

/-- A filesystem entry: a regular file with byte content, or a symbolic
link with its stored (possibly relative) target string. -/
inductive Entry where
  | file (content : String)
  | link (target : String)
deriving DecidableEq

/-- Filesystem state: an association list from path strings to entries
(first match wins, new entries are prepended), the directories known to
exist, and the process working directory used by `os.path.abspath`. -/
structure FS where
  entries : List (String × Entry)
  dirs : List String
  cwd : String
deriving DecidableEq

/-- Look up the entry stored at path `p`. -/
def lookupE (fs : FS) (p : String) : Option Entry :=
  (fs.entries.find? (fun e => e.1 == p)).map Prod.snd

/-- `os.path.islink`: does `p` itself hold a symbolic link (no following). -/
def islink (fs : FS) (p : String) : Bool :=
  match lookupE fs p with
  | some (Entry.link _) => true
  | _ => false

/-- `os.path.isdir`. -/
def isdir (fs : FS) (p : String) : Bool := fs.dirs.contains p

/-- `os.path.abspath` (modulo normalization): paths not starting with a
slash are joined onto the working directory. -/
def absify (cwd p : String) : String :=
  if strStartsWith p "/" then p else pyJoin cwd p

/-- Follow the chain of symbolic links at `p` (final component only;
directory components of the modelled scenarios are never links).  A
relative link target is interpreted relative to the link's directory.
`fuel` bounds the chain length, in the spirit of the kernel's ELOOP. -/
def resolveLink (fs : FS) : Nat → String → String
  | 0, p => p
  | Nat.succ fuel, p =>
    match lookupE fs p with
    | some (Entry.link t) => resolveLink fs fuel (absify (pyDirname p) t)
    | _ => p

/-- Link-chain fuel, and the fuel given to `handle_file`'s recursion. -/
def linkFuel : Nat := 64

/-- `os.path.realpath` (idealized, see module comment). -/
def realpath (fs : FS) (p : String) : String :=
  resolveLink fs linkFuel (absify fs.cwd p)

/-- `os.path.isfile`: stat follows symbolic links. -/
def isfile (fs : FS) (p : String) : Bool :=
  match lookupE fs (realpath fs p) with
  | some (Entry.file _) => true
  | _ => false

/-- Byte content read through symlink resolution (what `shutil.copy2`
copies from an existing regular file). -/
def readContent (fs : FS) (p : String) : String :=
  match lookupE fs (realpath fs p) with
  | some (Entry.file c) => c
  | _ => ""

/-- All ancestor directories `os.makedirs` would ensure, innermost
first; fuel is the string length, enough to reach the root. -/
def dirChain : Nat → String → List String
  | 0, _ => []
  | Nat.succ n, p => if p = "" || p = "/" then [] else p :: dirChain n (pyDirname p)

/-- `os.makedirs`: record the directory and all its ancestors. -/
def makedirs (fs : FS) (p : String) : FS :=
  { fs with dirs := dirChain (p.data.length + 1) p ++ fs.dirs }

/-- `shutil.copy2(src, targetDir)`: copy `src`'s bytes (following links)
to `targetDir/basename(src)`, overwriting. -/
def copy2 (fs : FS) (src targetDir : String) : FS :=
  { fs with entries := (pyJoin targetDir (pyBasename src), Entry.file (readContent fs src)) :: fs.entries }

/-- `os.symlink(target, linkName)`. -/
def symlinkTo (fs : FS) (target linkName : String) : FS :=
  { fs with entries := (linkName, Entry.link target) :: fs.entries }

/-! ## The embedded program

`St` couples the filesystem with the printed decision log. -/

structure St where
  fs : FS
  log : List String
deriving DecidableEq

/-- reduct.py line 60: `chunk = sourcefile[len(source):].lstrip("/")`. -/
def chunkOf (source p : String) : String := lstripSlash (strDrop p source.length)

/-- reduct.py line 62: `target = os.path.join(destination, os.path.dirname(chunk))`. -/
def targetOf (source destination p : String) : String :=
  pyJoin destination (pyDirname (chunkOf source p))

/-- The destination path `shutil.copy2` writes to in `copy_full`
(line 70): `target` joined with the basename of the source file. -/
def dstOf (source destination p : String) : String :=
  pyJoin (targetOf source destination p) (pyBasename p)

/-- reduct.py lines 59-72 (`copy_full`, nested in `reduct`). -/
def copy_full (source destination : String) (dryrun : Bool) (st : St) (sourcefile : String) : St :=
  let chunk := chunkOf source sourcefile
  let target := targetOf source destination sourcefile
  let st :=
    if isdir st.fs target = false then
      let st := { st with log := st.log ++ ["Making dirs to " ++ target] }
      if dryrun = false then { st with fs := makedirs st.fs target } else st
    else st
  if isfile st.fs (pyJoin target (pyBasename chunk)) = false then
    let st := { st with log := st.log ++ ["Copying " ++ sourcefile] }
    if dryrun = false then { st with fs := copy2 st.fs sourcefile target } else st
  else
    { st with log := st.log ++ ["Already exists: " ++ pyJoin target (pyBasename chunk)] }

/-- reduct.py lines 103-107 (`handle_file`) with the body of `make_link`
(lines 74-101) inlined in the link branch; `fuel` bounds the recursion
`make_link` → `handle_file` (line 79), which the Python version leaves
unbounded.  `make_link` below restates the link branch verbatim. -/
def handle_file (source destination : String) (dryrun : Bool) : Nat → St → String → St
  | 0, st, _ => st
  | Nat.succ fuel, st, sourcelink =>
    if islink st.fs sourcelink = true then
      let link_target := realpath st.fs sourcelink
      let st :=
        if strStartsWith link_target source = true then
          handle_file source destination dryrun fuel st link_target
        else st
      let chunk := chunkOf source sourcelink
      let dirname := pyDirname chunk
      let target := pyJoin destination dirname
      let filename := pyBasename sourcelink
      let link_name := pyJoin (pyJoin destination dirname) filename
      let st :=
        if isdir st.fs target = false then
          let st := { st with log := st.log ++ ["Making dirs to " ++ target] }
          if dryrun = false then { st with fs := makedirs st.fs target } else st
        else st
      let new_target_dir := pyRelpath (pyDirname link_target) (pyDirname sourcelink)
      let new_target := pyJoin new_target_dir (pyBasename link_target)
      if isfile st.fs link_name = false then
        let st := { st with log := st.log ++ ["Making softlink from " ++ link_name ++ " -> " ++ new_target] }
        if dryrun = false then { st with fs := symlinkTo st.fs new_target link_name } else st
      else
        { st with log := st.log ++ ["Already exists: " ++ link_name] }
    else copy_full source destination dryrun st sourcelink

/-- reduct.py lines 74-101 (`make_link`); `fuel` is handed to the
recursive `handle_file` call of line 79. -/
def make_link (source destination : String) (dryrun : Bool) (fuel : Nat) (st : St) (sourcelink : String) : St :=
  let link_target := realpath st.fs sourcelink
  let st :=
    if strStartsWith link_target source = true then
      handle_file source destination dryrun fuel st link_target
    else st
  let chunk := chunkOf source sourcelink
  let dirname := pyDirname chunk
  let target := pyJoin destination dirname
  let filename := pyBasename sourcelink
  let link_name := pyJoin (pyJoin destination dirname) filename
  let st :=
    if isdir st.fs target = false then
      let st := { st with log := st.log ++ ["Making dirs to " ++ target] }
      if dryrun = false then { st with fs := makedirs st.fs target } else st
    else st
  let new_target_dir := pyRelpath (pyDirname link_target) (pyDirname sourcelink)
  let new_target := pyJoin new_target_dir (pyBasename link_target)
  if isfile st.fs link_name = false then
    let st := { st with log := st.log ++ ["Making softlink from " ++ link_name ++ " -> " ++ new_target] }
    if dryrun = false then { st with fs := symlinkTo st.fs new_target link_name } else st
  else
    { st with log := st.log ++ ["Already exists: " ++ link_name] }

/-- `handle_file` at positive fuel is exactly the dispatch of
reduct.py lines 103-107. -/
theorem handle_file_succ (source destination : String) (dryrun : Bool) (fuel : Nat) (st : St) (p : String) :
    handle_file source destination dryrun (Nat.succ fuel) st p =
      if islink st.fs p = true then make_link source destination dryrun fuel st p
      else copy_full source destination dryrun st p := rfl

/-- reduct.py line 118: the second whitespace token of the line. -/
def syscallOf (line : String) : String := (pySplitWs line).getD 1 ""

/-- reduct.py lines 122-124: locate the first double-quoted substring of
the syscall token (`left`/`right` are Python `str.find` results). -/
def extractCandidate (syscall : String) : String :=
  let left : Nat := (pyFind syscall '"' + 1).toNat
  let right : Int := (left : Int) + pyFind (strDrop syscall left) '"'
  pySlice syscall left right

/-- reduct.py line 125 applied to the candidate of `line`:
`os.path.realpath(os.path.abspath(path))`. -/
def candPath (fs : FS) (line : String) : String :=
  realpath fs (absify fs.cwd (extractCandidate (syscallOf line)))

/-- `candPath` read off a program state. -/
def candPathSt (st : St) (line : String) : String := candPath st.fs line

/-- One iteration of the trace loop after the parse guard
(reduct.py lines 122-132). -/
def processOne (source destination : String) (dryrun : Bool) (st : St) (line : String) : St :=
  let syscall := syscallOf line
  let path := candPathSt st line
  if isfile st.fs path = false then
    { st with log := st.log ++ [path ++ " isn\x27t a file (" ++ syscall ++ ")"] }
  else if strStartsWith path source = true then
    handle_file source destination dryrun linkFuel st path
  else
    { st with log := st.log ++ ["Ignoring " ++ path ++ " (doesn\x27t start with " ++ source ++ ")"] }

/-- reduct.py lines 116-132: the trace loop.  A line with fewer than two
whitespace tokens raises `IndexError` at `line.split()[1]`, which is
caught, logged as `Failed on ...`, and breaks the loop. -/
def reduct_loop (source destination : String) (dryrun : Bool) : List String → St → St
  | [], st => st
  | line :: rest, st =>
    if (pySplitWs line).length < 2 then
      { st with log := st.log ++ ["Failed on " ++ line] }
    else
      reduct_loop source destination dryrun rest (processOne source destination dryrun st line)

/-- reduct.py lines 50-132 (`reduct`), taking the trace lines produced
by `strace_iter(*args)` as an argument. -/
def reduct (source destination : String) (dryrun : Bool) (args lines : List String) (st : St) : St :=
  let st :=
    if isdir st.fs destination = false then
      let st := { st with log := st.log ++ ["Making dirs to " ++ destination] }
      if dryrun = false then { st with fs := makedirs st.fs destination } else st
    else st
  let st := { st with log := st.log ++ ["Executing: " ++ joinSpace args] }
  reduct_loop source destination dryrun lines st

/-! ## Trace collector model (reduct.py lines 16-48) -/

/-- Result of the external strace invocation: its exit status and the
lines of the log file it produced (possibly partial). -/
structure TracerRun where
  exitCode : Nat
  logLines : List String
deriving DecidableEq

/-- `subprocess.check_call`: raises `CalledProcessError` on a non-zero
exit status. -/
def check_call (code : Nat) : Except String Unit :=
  if code = 0 then Except.ok ()
  else Except.error ("CalledProcessError(" ++ toString code ++ ")")

/-- reduct.py lines 30-48 (`strace_iter`): run the tracer; a
`CalledProcessError` is caught and its repr printed (lines 41-44); the
log file is then read and its lines yielded regardless.  Returns
(printed diagnostics, yielded lines). -/
def strace_iter (t : TracerRun) : List String × List String :=
  match check_call t.exitCode with
  | Except.ok _ => ([], t.logLines)
  | Except.error msg => ([msg], t.logLines)

/-- `reduct` composed with the trace collector, as called from `main`. -/
def reduct_traced (source destination : String) (dryrun : Bool) (args : List String) (t : TracerRun) (st : St) : St :=
  reduct source destination dryrun args (strace_iter t).2 st

/-- Exit paths of the `with tempdir()` scope inside `strace_iter`. -/
inductive ExitPath where
  | success
  | tracerFailure
  | consumerException
deriving DecidableEq

/-- Semantics of a `contextlib.contextmanager` generator with a single
yield: the code after the yield runs iff the with-body completed
normally, or the yield statement is wrapped in a try whose
finally/handler performs the cleanup. -/
def cleanupRuns (yieldProtected bodyCompletedNormally : Bool) : Bool :=
  bodyCompletedNormally || yieldProtected

/-- In reduct.py's `tempdir` (lines 16-28) the `yield dirname` at
line 23 is not inside any try block; the try around `shutil.rmtree`
begins only at line 24. -/
def tempdir_yield_protected : Bool := false

/-- Whether the body of `tempdir`'s scope completes normally on each
exit path of `strace_iter`: a tracer failure is caught at lines 41-44
inside the body, so the body still completes; an exception raised by the
consumer of the yielded lines is thrown into the generator at the yield. -/
def tempdir_body_completes : ExitPath → Bool
  | ExitPath.consumerException => false
  | _ => true

/-- Whether `shutil.rmtree(dirname)` is reached on a given exit path. -/
def tempdir_cleanup_runs (e : ExitPath) : Bool :=
  cleanupRuns tempdir_yield_protected (tempdir_body_completes e)

/-- The names bound at module level in reduct.py: the `__future__`
imports (line 6), the module imports (lines 8-14), and the top-level
definitions. -/
def reduct_module_names : List String :=
  ["print_function", "with_statement", "sys", "os", "tempfile",
   "subprocess", "shutil", "argparse", "contextmanager",
   "tempdir", "strace_iter", "reduct", "main"]

/-- The module-level name the cleanup handler of `tempdir` dereferences
at line 27 (`exc.errno != errno.ENOENT`). -/
def cleanup_handler_referenced_name : String := "errno"

/-! ## Specification-side predicates and invariants -/

/-- No two adjacent slashes anywhere in the character list. -/
def noDbl : List Char → Bool
  | a :: b :: t => if a == '/' && b == '/' then false else noDbl (b :: t)
  | _ => true

/-- A clean relative path: nonempty, no leading slash, no trailing
slash, no empty components. -/
def cleanRel (r : String) : Bool :=
  !(r == "") && !(strStartsWith r "/") && !(strEndsSlash r) && noDbl r.data

/-- `p` lies under the directory `source` as a path-component-aware
prefix: `p = source ++ "/" ++ r` for a clean relative remainder `r`
(so `/usr/bin2/x` is NOT under `/usr/bin`). -/
def compUnder (source p : String) : Bool :=
  strStartsWith p (source ++ "/") && cleanRel (strDrop p (source.length + 1))

/-- No entry of the starting filesystem lies under the destination root
(the destination starts out fresh). -/
def destFresh (destination : String) (fs0 : FS) : Bool :=
  fs0.entries.all (fun e => !(strStartsWith e.1 destination))

/-- Side conditions on one trace line relative to the starting
filesystem `fs0`: its resolved candidate path does not point into the
destination tree (neither the path nor its further resolution), the
resolved path is not itself still a link, and if the line would be
handled (existing file whose path starts with the source root) then its
path lies component-exactly under the source root. -/
def lineOK (source destination : String) (fs0 : FS) (line : String) : Bool :=
  let p := candPath fs0 line
  !(strStartsWith p destination) &&
  !(strStartsWith (realpath fs0 p) destination) &&
  !(islink fs0 p) &&
  (!(isfile fs0 p && strStartsWith p source) || compUnder source p)

/-- Invariant of a materialization run: relative to the starting
filesystem `fs0`, the working directory is unchanged, paths outside the
destination tree are untouched, every path inside the destination tree
is either still absent or a regular file copied from a
component-exact source path, and directories only appear. -/
structure Inv (source destination : String) (fs0 fs : FS) : Prop where
  cwd_eq : fs.cwd = fs0.cwd
  old_eq : ∀ p, strStartsWith p destination = false → lookupE fs p = lookupE fs0 p
  new_file : ∀ p, strStartsWith p destination = true →
    lookupE fs p = none ∨
    ∃ q c, compUnder source q = true ∧ lookupE fs0 q = some (Entry.file c) ∧
      p = dstOf source destination q ∧ lookupE fs p = some (Entry.file c)
  dirs_mono : ∀ d, isdir fs0 d = true → isdir fs d = true

/-- `fs'` extends `fs`: every stored entry and directory survives and
the working directory is unchanged. -/
def FSExtends (fs fs' : FS) : Prop :=
  fs'.cwd = fs.cwd ∧
  (∀ k e, lookupE fs k = some e → lookupE fs' k = some e) ∧
  (∀ d, isdir fs d = true → isdir fs' d = true)

/-- The destination-side obligations a processed trace line leaves
behind in filesystem `fs`: nothing for unparsable or skipped lines; for
a handled line, the copied file and its directory exist. -/
def satLine (source destination : String) (fs0 fs : FS) (line : String) : Prop :=
  let p := candPath fs0 line
  if isfile fs0 p = true ∧ strStartsWith p source = true then
    (∃ c, lookupE fs (dstOf source destination p) = some (Entry.file c)) ∧
      isdir fs (targetOf source destination p) = true
  else True

/-- `satLine` for every line the loop would process (processing stops at
the first unparsable line). -/
def satList (source destination : String) (fs0 fs : FS) : List String → Prop
  | [] => True
  | line :: rest =>
    if (pySplitWs line).length < 2 then True
    else satLine source destination fs0 fs line ∧ satList source destination fs0 fs rest

/-! ## Concrete scenarios used by counterexamples and witnesses -/

/-- A filesystem holding one file whose path is a raw-string near-miss
of the source root `/usr/bin`. -/
def fsNearMiss : FS := ⟨[("/usr/bin2/x", Entry.file "payload")], [], "/"⟩

/-- A trace line accessing the near-miss path. -/
def lineNearMiss : String := "1234 open(\"/usr/bin2/x\", O_RDONLY) = 3"

/-- A filesystem with a symlink `liba.so` to the regular file
`liba.so.1`, both under `/opt/tool`. -/
def fsLink : FS :=
  ⟨[("/opt/tool/lib/liba.so", Entry.link "liba.so.1"),
    ("/opt/tool/lib/liba.so.1", Entry.file "ELF")], [], "/"⟩

/-- A trace line opening the symlink. -/
def lineLink : String := "77 open(\"/opt/tool/lib/liba.so\", O_RDONLY) = 3"

/-- Two distinct source files that collide on the same destination path
when the raw-prefix filter admits the near-miss. -/
def fsCollide : FS :=
  ⟨[("/usr/bin2/x", Entry.file "AAA"), ("/usr/bin/2/x", Entry.file "BBB")], [], "/"⟩

/-- Trace line for the near-miss file of `fsCollide`. -/
def lineCollideA : String := "1 open(\"/usr/bin2/x\") = 3"

/-- Trace line for the genuine source file of `fsCollide`. -/
def lineCollideB : String := "2 open(\"/usr/bin/2/x\") = 3"

/-- A file whose path continues the source root without a slash
(`/usr/binx` against source `/usr/bin`). -/
def fsBoundary : FS := ⟨[("/usr/binx", Entry.file "Z")], [], "/"⟩

/-- Trace line accessing `/usr/binx`. -/
def lineBoundary : String := "9 open(\"/usr/binx\") = 3"

/-- A single source file, used with a duplicated trace line. -/
def fsDup : FS := ⟨[("/src/a", Entry.file "A")], [], "/"⟩

/-- Trace line accessing `/src/a`. -/
def lineDup : String := "1 open(\"/src/a\") = 3"

/-- A filesystem where the destination directory exists but the traced
path does not. -/
def fsMissing : FS := ⟨[], ["/d"], "/"⟩

/-- Trace line whose candidate path does not exist. -/
def lineMissing : String := "5 open(\"/nope\", O_RDONLY) = -1"

/-- The end-to-end scenario of the specification: `/opt/tool/bin/run`
exists and is opened by the traced command. -/
def fsRun : FS := ⟨[("/opt/tool/bin/run", Entry.file "ELF")], [], "/"⟩

/-- Trace line of the end-to-end scenario. -/
def lineRun : String := "12345 open(\"/opt/tool/bin/run\", O_RDONLY) = 3"

/-! ## String-level lemmas -/

theorem mk_data (s : String) : String.mk s.data = s := by
  cases s
  rfl

theorem data_mk (l : List Char) : (String.mk l).data = l := rfl

theorem data_append (s t : String) : (s ++ t).data = s.data ++ t.data := by
  cases s
  cases t
  rfl

theorem str_length (s : String) : s.length = s.data.length := rfl

theorem str_ext (s t : String) (h : s.data = t.data) : s = t := by
  cases s
  cases t
  exact congrArg String.mk h

theorem startsWith_iff (s p : String) : strStartsWith s p = true ↔ p.data <+: s.data := by
  simp [strStartsWith, List.isPrefixOf_iff_prefix]

theorem startsWith_append_left (p t : String) : strStartsWith (p ++ t) p = true := by
  rw [startsWith_iff, data_append]
  exact List.prefix_append p.data t.data

theorem startsWith_trans (s m p : String) (h1 : strStartsWith s m = true)
    (h2 : strStartsWith m p = true) : strStartsWith s p = true := by
  rw [startsWith_iff] at *
  exact h2.trans h1

theorem startsWith_drop (p q : String) (h : strStartsWith p q = true) :
    p = q ++ strDrop p q.length := by
  rw [startsWith_iff] at h
  obtain ⟨t, ht⟩ := h
  apply str_ext
  rw [data_append, strDrop, data_mk, str_length, ← ht, List.drop_left]

theorem startsWith_slash_iff (s : String) :
    strStartsWith s "/" = true ↔ ∃ t, s.data = '/' :: t := by
  rw [startsWith_iff]
  show ['/'] <+: s.data ↔ _
  constructor
  · rintro ⟨t, ht⟩
    exact ⟨t, by rw [← ht]; rfl⟩
  · rintro ⟨t, ht⟩
    exact ⟨t, by rw [ht]; rfl⟩

theorem startsWith_nonempty (s p : String) (h : strStartsWith s p = true)
    (hp : p ≠ "") : s ≠ "" := by
  rw [startsWith_iff] at h
  intro hs
  apply hp
  apply str_ext
  have : s.data = [] := by rw [hs]
  rw [this] at h
  simpa using List.eq_nil_of_prefix_nil h

/-! ## Path-manipulation lemmas -/

theorem pyBasename_data (p : String) :
    (pyBasename p).data = (p.data.reverse.takeWhile (fun c => !(c == '/'))).reverse := rfl

theorem pyBasename_noslash (v : List Char) (h : '/' ∉ v) :
    pyBasename (String.mk v) = String.mk v := by
  apply str_ext
  rw [pyBasename_data, data_mk]
  have hself : v.reverse.takeWhile (fun c => !(c == '/')) = v.reverse := by
    apply List.takeWhile_eq_self_iff.mpr
    intro a ha
    have hne : a ≠ '/' := by
      intro he
      exact h (by rw [← he]; exact List.mem_reverse.mp ha)
    simp [hne]
  rw [hself, List.reverse_reverse]

theorem pyBasename_concat (u v : List Char) :
    pyBasename (String.mk (u ++ '/' :: v)) = pyBasename (String.mk v) := by
  apply str_ext
  rw [pyBasename_data, pyBasename_data, data_mk, data_mk]
  have hrev : (u ++ '/' :: v).reverse = v.reverse ++ '/' :: u.reverse := by
    rw [List.reverse_append, List.reverse_cons]
    simp
  rw [hrev, List.takeWhile_append]
  by_cases h : (v.reverse.takeWhile (fun c => !(c == '/'))).length = v.reverse.length
  · rw [if_pos h]
    have h2 : (('/' : Char) :: u.reverse).takeWhile (fun c => !(c == '/')) = [] := by
      simp [List.takeWhile_cons]
    rw [h2, List.append_nil, (List.takeWhile_prefix _).eq_of_length h]
  · rw [if_neg h]

theorem pyDirname_apply (p : String) :
    pyDirname p =
      String.mk
        (if (p.data.reverse.dropWhile (fun c => !(c == '/'))).all (fun c => c == '/')
         then (p.data.reverse.dropWhile (fun c => !(c == '/'))).reverse
         else stripTrailingSlashes (p.data.reverse.dropWhile (fun c => !(c == '/'))).reverse) := rfl

theorem pyDirname_noslash (v : List Char) (h : '/' ∉ v) :
    pyDirname (String.mk v) = "" := by
  rw [pyDirname_apply, data_mk]
  have hd : v.reverse.dropWhile (fun c => !(c == '/')) = [] := by
    apply List.dropWhile_eq_nil_iff.mpr
    intro a ha
    have hne : a ≠ '/' := by
      intro he
      exact h (by rw [← he]; exact List.mem_reverse.mp ha)
    simp [hne]
  rw [hd]
  rfl

theorem pyDirname_concat_clean (u v : List Char) (hv : '/' ∉ v) (hu : u ≠ [])
    (hul : u.getLast? ≠ some '/') : pyDirname (String.mk (u ++ '/' :: v)) = String.mk u := by
  rw [pyDirname_apply, data_mk]
  have hrev : (u ++ '/' :: v).reverse = v.reverse ++ '/' :: u.reverse := by
    rw [List.reverse_append, List.reverse_cons]
    simp
  have hvall : v.reverse.dropWhile (fun c => !(c == '/')) = [] := by
    apply List.dropWhile_eq_nil_iff.mpr
    intro a ha
    have hne : a ≠ '/' := by
      intro he
      exact hv (by rw [← he]; exact List.mem_reverse.mp ha)
    simp [hne]
  have hd : (u ++ '/' :: v).reverse.dropWhile (fun c => !(c == '/')) = '/' :: u.reverse := by
    rw [hrev, List.dropWhile_append, hvall]
    simp [List.dropWhile_cons]
  rw [hd]
  have hrevne : u.reverse ≠ [] := by
    intro h0
    exact hu (by simpa using congrArg List.reverse h0)
  obtain ⟨c, w, hcw⟩ := List.exists_cons_of_ne_nil hrevne
  have hch : u.getLast? = some c := by
    rw [← List.head?_reverse, hcw]
    rfl
  have hcne : c ≠ '/' := fun he => hul (by rw [hch, he])
  have hall : ((('/' : Char) :: u.reverse).all (fun c => c == '/')) = false := by
    rw [hcw]
    simp [hcne]
  rw [hall, if_neg (by simp)]
  apply congrArg
  show stripTrailingSlashes (('/' :: u.reverse).reverse) = u
  rw [stripTrailingSlashes, List.reverse_reverse]
  rw [List.dropWhile_cons, if_pos (by simp)]
  rw [hcw, List.dropWhile_cons, if_neg (by simp [hcne])]
  rw [← hcw, List.reverse_reverse]

theorem noDbl_tail (c : Char) (t : List Char) (h : noDbl (c :: t) = true) : noDbl t = true := by
  cases t with
  | nil => rfl
  | cons d t' =>
    rw [noDbl] at h
    by_cases hcd : (c == '/' && d == '/') = true
    · rw [if_pos hcd] at h
      exact absurd h (by simp)
    · rwa [if_neg hcd] at h

theorem noDbl_append_pair (x y : List Char) (a b : Char)
    (h : noDbl (x ++ a :: b :: y) = true) : (a == '/' && b == '/') = false := by
  induction x with
  | nil =>
    rw [List.nil_append, noDbl] at h
    by_cases hab : (a == '/' && b == '/') = true
    · rw [if_pos hab] at h
      exact absurd h (by simp)
    · simpa using hab
  | cons c x ih =>
    apply ih
    rw [List.cons_append] at h
    exact noDbl_tail _ _ h

theorem last_slash_decomp (l : List Char) (h : '/' ∈ l) :
    ∃ u v, l = u ++ '/' :: v ∧ '/' ∉ v := by
  induction l with
  | nil => cases h
  | cons c t ih =>
    by_cases ht : '/' ∈ t
    · obtain ⟨u, v, h1, h2⟩ := ih ht
      exact ⟨c :: u, v, by rw [List.cons_append, h1], h2⟩
    · have hc : c = '/' := by
        rcases List.mem_cons.mp h with h | h
        · exact h.symm
        · exact absurd h ht
      exact ⟨[], t, by rw [hc, List.nil_append], ht⟩

theorem strEndsSlash_iff (s : String) : strEndsSlash s = true ↔ s.data.getLast? = some '/' := by
  simp [strEndsSlash]

theorem cleanRel_spec (r : String) (hc : cleanRel r = true) :
    r.data ≠ [] ∧ r.data.head? ≠ some '/' ∧ r.data.getLast? ≠ some '/' ∧ noDbl r.data = true := by
  have h4 := hc
  rw [cleanRel] at h4
  simp only [Bool.and_eq_true, Bool.not_eq_true'] at h4
  obtain ⟨⟨⟨h1, h2⟩, h3⟩, h5⟩ := h4
  refine ⟨?_, ?_, ?_, h5⟩
  · intro h0
    have : r = "" := str_ext r "" h0
    rw [this] at h1
    exact absurd h1 (by simp)
  · intro h0
    have : ∃ t, r.data = '/' :: t := by
      cases hr : r.data with
      | nil => rw [hr] at h0; exact absurd h0 (by simp)
      | cons a t =>
        rw [hr] at h0
        simp at h0
        exact ⟨t, by rw [h0]⟩
    rw [← startsWith_slash_iff] at this
    rw [this] at h2
    cases h2
  · intro h0
    have : strEndsSlash r = true := (strEndsSlash_iff r).mpr h0
    rw [this] at h3
    cases h3

/-- Structure of a clean relative path containing a slash: it splits at
its final slash into a nonempty head not ending in a slash and a
nonempty slash-free tail. -/
theorem clean_decomp (r : String) (hc : cleanRel r = true) (hs : '/' ∈ r.data) :
    ∃ u v, r.data = u ++ '/' :: v ∧ u ≠ [] ∧ v ≠ [] ∧ '/' ∉ v ∧
      u.getLast? ≠ some '/' := by
  obtain ⟨hne, hhead, hlast, hdbl⟩ := cleanRel_spec r hc
  obtain ⟨u, v, hdec, hv⟩ := last_slash_decomp r.data hs
  refine ⟨u, v, hdec, ?_, ?_, hv, ?_⟩
  · intro h0
    rw [h0, List.nil_append] at hdec
    apply hhead
    rw [hdec]
    rfl
  · intro h0
    rw [h0] at hdec
    apply hlast
    rw [hdec]
    rw [List.getLast?_append_of_ne_nil _ (by simp : [('/' : Char)] ≠ [])]
    rfl
  · intro h0
    obtain ⟨u', hu'⟩ := List.getLast?_eq_some_iff.mp h0
    rw [hu', List.append_assoc] at hdec
    have hd2 : r.data = u' ++ '/' :: '/' :: v := by simpa using hdec
    have := noDbl_append_pair u' v '/' '/' (by rw [← hd2]; exact hdbl)
    exact absurd this (by simp)

/-! ## Join, chunk and destination-path formulas -/

theorem pyJoin_std (a b : String) (hb : strStartsWith b "/" = false) (ha : a ≠ "")
    (hae : strEndsSlash a = false) : pyJoin a b = a ++ "/" ++ b := by
  rw [pyJoin, hb]
  simp [ha, hae]

theorem pyJoin_ends (a b : String) (hb : strStartsWith b "/" = false)
    (hae : a = "" ∨ strEndsSlash a = true) : pyJoin a b = a ++ b := by
  rw [pyJoin, hb]
  rcases hae with h | h <;> simp [h]

theorem startsWith_false_of_head (s : String) (h : s.data.head? ≠ some '/') :
    strStartsWith s "/" = false := by
  cases hb : strStartsWith s "/" with
  | false => rfl
  | true =>
    obtain ⟨t, ht⟩ := (startsWith_slash_iff s).mp hb
    exact absurd (by rw [ht]; rfl) h

theorem compUnder_decomp (source p : String) (h : compUnder source p = true) :
    p = source ++ "/" ++ strDrop p (source.length + 1) ∧
    cleanRel (strDrop p (source.length + 1)) = true ∧
    p.data = source.data ++ '/' :: (strDrop p (source.length + 1)).data := by
  rw [compUnder, Bool.and_eq_true] at h
  obtain ⟨h1, h2⟩ := h
  have hlen : (source ++ "/").length = source.length + 1 := by
    rw [str_length, str_length, data_append]
    simp
  have heq : p = (source ++ "/") ++ strDrop p (source.length + 1) := by
    have := startsWith_drop p (source ++ "/") h1
    rwa [hlen] at this
  refine ⟨heq, h2, ?_⟩
  conv_lhs => rw [heq]
  rw [data_append, data_append]
  simp

theorem compUnder_startsWith (source p : String) (h : compUnder source p = true) :
    strStartsWith p source = true := by
  obtain ⟨heq, hclean, hdata⟩ := compUnder_decomp source p h
  rw [startsWith_iff, hdata]
  exact List.prefix_append _ _

theorem chunk_eq (source p : String) (h : compUnder source p = true) :
    chunkOf source p = strDrop p (source.length + 1) := by
  obtain ⟨heq, hclean, hdata⟩ := compUnder_decomp source p h
  obtain ⟨hne, hhead, hlast, hdbl⟩ := cleanRel_spec _ hclean
  apply str_ext
  rw [chunkOf, lstripSlash, strDrop, data_mk, data_mk, hdata]
  have hdrop : List.drop source.length (source.data ++ '/' :: (strDrop p (source.length + 1)).data)
      = '/' :: (strDrop p (source.length + 1)).data := List.drop_left source.data _
  rw [hdrop, List.dropWhile_cons, if_pos (by simp)]
  cases hr : (strDrop p (source.length + 1)).data with
  | nil => rfl
  | cons a t =>
    have ha : a ≠ '/' := by
      intro he
      apply hhead
      rw [hr, he]
      rfl
    rw [List.dropWhile_cons, if_neg (by simp [ha])]

/-- For a component-exact source path, the key checked by `copy_full`'s
existence guard coincides with the key `shutil.copy2` writes. -/
theorem basename_chunk_eq (source p : String) (h : compUnder source p = true) :
    pyBasename (chunkOf source p) = pyBasename p := by
  obtain ⟨heq, hclean, hdata⟩ := compUnder_decomp source p h
  rw [chunk_eq source p h]
  have hp : p = String.mk (source.data ++ '/' :: (strDrop p (source.length + 1)).data) :=
    str_ext _ _ (by rw [data_mk]; exact hdata)
  conv_rhs => rw [hp]
  rw [pyBasename_concat, mk_data]

/-- Destination-path formula: under the side conditions on the
destination root, the copy of a component-exact source path lands at
`destination ++ "/" ++ remainder`, and the directory created for it is
prefixed by the destination root. -/
theorem dst_formula (source destination p : String)
    (h : compUnder source p = true)
    (hd1 : strStartsWith destination "/" = true)
    (hd2 : strEndsSlash destination = false) :
    dstOf source destination p = destination ++ "/" ++ strDrop p (source.length + 1) ∧
    strStartsWith (targetOf source destination p) (destination ++ "/") = true := by
  obtain ⟨heq, hclean, hdata⟩ := compUnder_decomp source p h
  obtain ⟨hne, hhead, hlast, hdbl⟩ := cleanRel_spec _ hclean
  have hdne : destination ≠ "" := startsWith_nonempty _ _ hd1 (by decide)
  have hp : p = String.mk (source.data ++ '/' :: (strDrop p (source.length + 1)).data) :=
    str_ext _ _ (by rw [data_mk]; exact hdata)
  rw [dstOf, targetOf, chunk_eq source p h]
  by_cases hs : '/' ∈ (strDrop p (source.length + 1)).data
  · obtain ⟨u, v, hdec, hu, hv, hvs, hul⟩ := clean_decomp _ hclean hs
    have hr : strDrop p (source.length + 1) = String.mk (u ++ '/' :: v) :=
      str_ext _ _ (by rw [data_mk]; exact hdec)
    have hdir : pyDirname (strDrop p (source.length + 1)) = String.mk u := by
      rw [hr]
      exact pyDirname_concat_clean u v hvs hu hul
    have huh : (String.mk u).data.head? ≠ some '/' := by
      rw [data_mk]
      intro h0
      apply hhead
      rw [hdec]
      cases u with
      | nil => exact absurd rfl hu
      | cons c w => exact (by simpa using h0) ▸ (by rw [List.cons_append]; rfl)
    have htarget : pyJoin destination (pyDirname (strDrop p (source.length + 1))) =
        destination ++ "/" ++ String.mk u := by
      rw [hdir]
      exact pyJoin_std _ _ (startsWith_false_of_head _ huh) hdne hd2
    have hbase : pyBasename p = String.mk v := by
      have hp2 : p = String.mk ((source.data ++ '/' :: u) ++ '/' :: v) := by
        rw [hp]
        apply congrArg
        rw [hdec]
        simp
      rw [hp2, pyBasename_concat]
      exact pyBasename_noslash v hvs
    have htne : destination ++ "/" ++ String.mk u ≠ "" := by
      intro h0
      have : (destination ++ "/" ++ String.mk u).data = [] := by rw [h0]
      rw [data_append, data_append] at this
      simp at this
    have htends : strEndsSlash (destination ++ "/" ++ String.mk u) = false := by
      rw [strEndsSlash, data_append]
      rw [List.getLast?_append_of_ne_nil _ (show (String.mk u).data ≠ [] by rw [data_mk]; exact hu)]
      rw [data_mk]
      cases hg : u.getLast? with
      | none => rfl
      | some c =>
        have hcne : c ≠ '/' := fun he => hul (by rw [hg, he])
        simp [hcne]
    constructor
    · rw [htarget, hbase]
      rw [pyJoin_std _ _ (startsWith_false_of_head _ (by
            rw [data_mk]
            intro h0
            cases v with
            | nil => exact hv rfl
            | cons c w =>
              apply hvs
              have : c = '/' := by simpa using h0
              rw [this]
              exact List.mem_cons_self _ _)) htne htends]
      rw [hr]
      apply str_ext
      repeat rw [data_append]
      rw [data_mk, data_mk, data_mk]
      simp
    · rw [htarget, String.append_assoc, startsWith_iff]
      simp only [data_append]
      rw [← List.append_assoc]
      exact List.prefix_append _ _
  · have hdir : pyDirname (strDrop p (source.length + 1)) = "" := by
      have : strDrop p (source.length + 1) = String.mk (strDrop p (source.length + 1)).data :=
        (mk_data _).symm
      rw [this]
      exact pyDirname_noslash _ hs
    have htarget : pyJoin destination (pyDirname (strDrop p (source.length + 1))) =
        destination ++ "/" := by
      rw [hdir, pyJoin_std _ _ (by decide) hdne hd2]
      apply str_ext
      simp [data_append]
    have hbase : pyBasename p = strDrop p (source.length + 1) := by
      conv_lhs => rw [hp]
      rw [pyBasename_concat, pyBasename_noslash _ hs, mk_data]
    constructor
    · rw [htarget, hbase]
      rw [pyJoin_ends _ _ (startsWith_false_of_head _ hhead) (Or.inr (by
            rw [strEndsSlash, data_append]
            rw [List.getLast?_append_of_ne_nil _ (by simp : ("/" : String).data ≠ [])]
            rfl))]
    · rw [htarget, startsWith_iff]

/-- Distinct component-exact source paths land at distinct destination
paths. -/
theorem dst_inj (source destination p q : String)
    (hp : compUnder source p = true) (hq : compUnder source q = true)
    (hd1 : strStartsWith destination "/" = true)
    (hd2 : strEndsSlash destination = false)
    (he : dstOf source destination p = dstOf source destination q) : p = q := by
  rw [(dst_formula source destination p hp hd1 hd2).1,
      (dst_formula source destination q hq hd1 hd2).1] at he
  have h2 := congrArg String.data he
  simp only [data_append] at h2
  have h3 : (strDrop p (source.length + 1)).data = (strDrop q (source.length + 1)).data :=
    List.append_cancel_left h2
  have h4 : strDrop p (source.length + 1) = strDrop q (source.length + 1) := str_ext _ _ h3
  rw [(compUnder_decomp source p hp).1, h4, ← (compUnder_decomp source q hq).1]

theorem dst_startsWith (source destination p : String) (h : compUnder source p = true)
    (hd1 : strStartsWith destination "/" = true) (hd2 : strEndsSlash destination = false) :
    strStartsWith (dstOf source destination p) destination = true := by
  rw [(dst_formula source destination p h hd1 hd2).1, String.append_assoc, startsWith_iff,
      data_append]
  exact List.prefix_append _ _

theorem target_startsWith (source destination p : String) (h : compUnder source p = true)
    (hd1 : strStartsWith destination "/" = true) (hd2 : strEndsSlash destination = false) :
    strStartsWith (targetOf source destination p) destination = true := by
  apply startsWith_trans _ (destination ++ "/")
  · exact (dst_formula source destination p h hd1 hd2).2
  · rw [startsWith_iff, data_append]
    exact List.prefix_append _ _

theorem target_ne_empty (source destination p : String) (h : compUnder source p = true)
    (hd1 : strStartsWith destination "/" = true) (hd2 : strEndsSlash destination = false) :
    targetOf source destination p ≠ "" ∧ targetOf source destination p ≠ "/" := by
  have hpre := (dst_formula source destination p h hd1 hd2).2
  rw [startsWith_iff] at hpre
  have hlen : 2 ≤ (destination ++ "/").data.length := by
    rw [data_append]
    obtain ⟨t, ht⟩ := (startsWith_slash_iff destination).mp hd1
    rw [ht]
    have : t ≠ [] := by
      intro h0
      rw [h0] at ht
      apply absurd ((strEndsSlash_iff destination).mpr (by rw [ht]; rfl))
      rw [hd2]
      simp
    cases t with
    | nil => exact absurd rfl this
    | cons a w => simp
  have hlen2 := hpre.length_le
  constructor
  · intro h0
    rw [h0] at hlen2
    have h00 : ("" : String).data.length = 0 := rfl
    omega
  · intro h0
    rw [h0] at hlen2
    have h01 : ("/" : String).data.length = 1 := rfl
    omega

/-! ## Filesystem-model lemmas -/

theorem lookupE_copy2 (fs : FS) (src tdir q : String) :
    lookupE (copy2 fs src tdir) q =
      if pyJoin tdir (pyBasename src) = q then some (Entry.file (readContent fs src))
      else lookupE fs q := by
  rw [lookupE, copy2]
  show ((((pyJoin tdir (pyBasename src), Entry.file (readContent fs src)) :: fs.entries).find?
      (fun e => e.1 == q)).map Prod.snd) = _
  rw [List.find?_cons]
  by_cases h : pyJoin tdir (pyBasename src) = q
  · rw [if_pos h]
    simp [h]
  · rw [if_neg h]
    have : ((pyJoin tdir (pyBasename src), Entry.file (readContent fs src)).1 == q) = false := by
      simpa using h
    rw [this]
    rfl

theorem lookupE_makedirs (fs : FS) (t q : String) : lookupE (makedirs fs t) q = lookupE fs q := rfl

theorem islink_makedirs (fs : FS) (t q : String) : islink (makedirs fs t) q = islink fs q := rfl

theorem cwd_makedirs (fs : FS) (t : String) : (makedirs fs t).cwd = fs.cwd := rfl

theorem cwd_copy2 (fs : FS) (s t : String) : (copy2 fs s t).cwd = fs.cwd := rfl

theorem dirs_copy2 (fs : FS) (s t : String) : (copy2 fs s t).dirs = fs.dirs := rfl

theorem isdir_makedirs_self (fs : FS) (t : String) (h1 : t ≠ "") (h2 : t ≠ "/") :
    isdir (makedirs fs t) t = true := by
  rw [isdir, makedirs]
  show (dirChain (t.data.length + 1) t ++ fs.dirs).contains t = true
  rw [dirChain]
  rw [if_neg (by simp [h1, h2])]
  simp

theorem isdir_makedirs_mono (fs : FS) (t d : String) (h : isdir fs d = true) :
    isdir (makedirs fs t) d = true := by
  rw [isdir] at h
  rw [isdir, makedirs]
  show (dirChain (t.data.length + 1) t ++ fs.dirs).contains d = true
  rw [List.elem_iff] at h
  rw [List.elem_iff]
  exact List.mem_append_right _ h

theorem isdir_copy2 (fs : FS) (s t d : String) : isdir (copy2 fs s t) d = isdir fs d := rfl

theorem resolveLink_succ (fs : FS) (n : Nat) (p : String) :
    resolveLink fs (Nat.succ n) p =
      match lookupE fs p with
      | some (Entry.link t) => resolveLink fs n (absify (pyDirname p) t)
      | _ => p := rfl

theorem linkFuel_succ : linkFuel = Nat.succ 63 := rfl

theorem resolveLink_nonlink (fs : FS) (n : Nat) (p : String) (h : islink fs p = false) :
    resolveLink fs (Nat.succ n) p = p := by
  rw [resolveLink_succ]
  rw [islink] at h
  cases hl : lookupE fs p with
  | none => rfl
  | some e =>
    cases e with
    | file c => rfl
    | link t =>
      rw [hl] at h
      simp at h

theorem absify_id (cwd p : String) (h : strStartsWith p "/" = true) : absify cwd p = p := by
  rw [absify, h]
  rfl

theorem realpath_fixed (fs : FS) (p : String) (h1 : strStartsWith p "/" = true)
    (h2 : islink fs p = false) : realpath fs p = p := by
  rw [realpath, absify_id _ _ h1, linkFuel_succ, resolveLink_nonlink _ _ _ h2]

theorem islink_of_file (fs : FS) (p c : String) (h : lookupE fs p = some (Entry.file c)) :
    islink fs p = false := by
  rw [islink, h]

theorem isfile_lookup (fs : FS) (p : String) (h1 : strStartsWith p "/" = true)
    (h2 : islink fs p = false) :
    isfile fs p = true ↔ ∃ c, lookupE fs p = some (Entry.file c) := by
  rw [isfile, realpath_fixed fs p h1 h2]
  cases hl : lookupE fs p with
  | none => simp
  | some e =>
    cases e with
    | file c => simp
    | link t =>
      rw [islink, hl] at h2
      simp at h2

theorem isfile_of_entry (fs : FS) (p c : String) (h1 : strStartsWith p "/" = true)
    (h2 : lookupE fs p = some (Entry.file c)) : isfile fs p = true :=
  (isfile_lookup fs p h1 (islink_of_file fs p c h2)).mpr ⟨c, h2⟩

theorem readContent_of_entry (fs : FS) (p c : String) (h1 : strStartsWith p "/" = true)
    (h2 : lookupE fs p = some (Entry.file c)) : readContent fs p = c := by
  rw [readContent, realpath_fixed fs p h1 (islink_of_file fs p c h2), h2]

/-! ## Stability of path resolution under destination-side writes -/

theorem destFresh_spec (destination : String) (fs0 : FS) (h : destFresh destination fs0 = true) :
    ∀ q, strStartsWith q destination = true → lookupE fs0 q = none := by
  intro q hq
  cases hl : lookupE fs0 q with
  | none => rfl
  | some e =>
    rw [lookupE] at hl
    cases hf : fs0.entries.find? (fun e => e.1 == q) with
    | none =>
      rw [hf] at hl
      cases hl
    | some pr =>
      have hmem := List.mem_of_find?_eq_some hf
      have hpred := List.find?_some hf
      have hq' : pr.1 = q := by simpa using hpred
      rw [destFresh, List.all_eq_true] at h
      have h2 := h pr hmem
      rw [hq', hq] at h2
      simp at h2

theorem resolveLink_stable (destination : String) (fs0 fs : FS)
    (hold : ∀ q, strStartsWith q destination = false → lookupE fs q = lookupE fs0 q)
    (hnew : ∀ q, strStartsWith q destination = true →
      lookupE fs q = none ∨ ∃ c, lookupE fs q = some (Entry.file c))
    (hfresh : ∀ q, strStartsWith q destination = true → lookupE fs0 q = none) :
    ∀ fuel p, resolveLink fs fuel p = resolveLink fs0 fuel p := by
  intro fuel
  induction fuel with
  | zero => intro p; rfl
  | succ n ih =>
    intro p
    rw [resolveLink_succ, resolveLink_succ]
    cases hq : strStartsWith p destination with
    | true =>
      rw [hfresh p hq]
      rcases hnew p hq with h | ⟨c, h⟩ <;> rw [h]
    | false =>
      rw [hold p hq]
      cases lookupE fs0 p with
      | none => rfl
      | some e =>
        cases e with
        | file c => rfl
        | link t => exact ih _

/-- Everything `Inv` guarantees about lookups, in the form the stability
lemmas need. -/
theorem Inv.lookups (source destination : String) (fs0 fs : FS)
    (inv : Inv source destination fs0 fs) (hfresh : destFresh destination fs0 = true) :
    (∀ q, strStartsWith q destination = false → lookupE fs q = lookupE fs0 q) ∧
    (∀ q, strStartsWith q destination = true →
      lookupE fs q = none ∨ ∃ c, lookupE fs q = some (Entry.file c)) ∧
    (∀ q, strStartsWith q destination = true → lookupE fs0 q = none) := by
  refine ⟨inv.old_eq, ?_, destFresh_spec destination fs0 hfresh⟩
  intro q hq
  rcases inv.new_file q hq with h | ⟨p', c, _, _, _, h⟩
  · exact Or.inl h
  · exact Or.inr ⟨c, h⟩

theorem realpath_stable (source destination : String) (fs0 fs : FS)
    (inv : Inv source destination fs0 fs) (hfresh : destFresh destination fs0 = true)
    (p : String) : realpath fs p = realpath fs0 p := by
  obtain ⟨h1, h2, h3⟩ := Inv.lookups source destination fs0 fs inv hfresh
  rw [realpath, realpath, inv.cwd_eq]
  exact resolveLink_stable destination fs0 fs h1 h2 h3 _ _

theorem candPath_stable (source destination : String) (fs0 fs : FS)
    (inv : Inv source destination fs0 fs) (hfresh : destFresh destination fs0 = true)
    (line : String) : candPath fs line = candPath fs0 line := by
  rw [candPath, candPath, inv.cwd_eq]
  exact realpath_stable source destination fs0 fs inv hfresh _

theorem islink_stable (source destination : String) (fs0 fs : FS)
    (inv : Inv source destination fs0 fs) (p : String)
    (hp : strStartsWith p destination = false) : islink fs p = islink fs0 p := by
  rw [islink, islink, inv.old_eq p hp]

theorem isfile_stable (source destination : String) (fs0 fs : FS)
    (inv : Inv source destination fs0 fs) (hfresh : destFresh destination fs0 = true)
    (p : String) (hp : strStartsWith (realpath fs0 p) destination = false) :
    isfile fs p = isfile fs0 p := by
  rw [isfile, isfile, realpath_stable source destination fs0 fs inv hfresh p,
      inv.old_eq _ hp]

theorem lookupE_stable (source destination : String) (fs0 fs : FS)
    (inv : Inv source destination fs0 fs) (p : String)
    (hp : strStartsWith p destination = false) : lookupE fs p = lookupE fs0 p :=
  inv.old_eq p hp

/-- The starting filesystem satisfies the invariant. -/
theorem Inv.init (source destination : String) (fs0 : FS)
    (hfresh : destFresh destination fs0 = true) : Inv source destination fs0 fs0 where
  cwd_eq := rfl
  old_eq := fun _ _ => rfl
  new_file := fun p hp => Or.inl (destFresh_spec destination fs0 hfresh p hp)
  dirs_mono := fun _ h => h

/-- `makedirs` preserves the invariant. -/
theorem Inv.makedirs (source destination : String) (fs0 fs : FS)
    (inv : Inv source destination fs0 fs) (t : String) :
    Inv source destination fs0 (Reduct.makedirs fs t) where
  cwd_eq := by rw [cwd_makedirs]; exact inv.cwd_eq
  old_eq := fun p hp => by rw [lookupE_makedirs]; exact inv.old_eq p hp
  new_file := fun p hp => by rw [lookupE_makedirs]; exact inv.new_file p hp
  dirs_mono := fun d hd => isdir_makedirs_mono fs t d (inv.dirs_mono d hd)

theorem FSExtends.refl (fs : FS) : FSExtends fs fs :=
  ⟨rfl, fun _ _ h => h, fun _ h => h⟩

theorem FSExtends.trans (a b c : FS) (h1 : FSExtends a b) (h2 : FSExtends b c) :
    FSExtends a c :=
  ⟨by rw [h2.1, h1.1], fun k e h => h2.2.1 k e (h1.2.1 k e h),
   fun d h => h2.2.2 d (h1.2.2 d h)⟩

theorem islink_of_none (fs : FS) (p : String) (h : lookupE fs p = none) :
    islink fs p = false := by
  rw [islink, h]

/-! ## The copy step -/

/-- `copy_full` mutates nothing when the directory and the guarded
destination file already exist. -/
theorem copy_full_noop (source destination : String) (st : St) (p : String)
    (hdir : isdir st.fs (targetOf source destination p) = true)
    (hex : isfile st.fs
      (pyJoin (targetOf source destination p) (pyBasename (chunkOf source p))) = true) :
    (copy_full source destination false st p).fs = st.fs := by
  simp [copy_full, hdir, hex]

/-- Effect of one real (non-dry) `copy_full` call on a handled path:
the invariant is preserved, the filesystem only grows, the destination
file carries the source file's content, and its directory exists. -/
theorem copy_full_run (source destination : String) (fs0 : FS) (st : St) (p : String)
    (inv : Inv source destination fs0 st.fs)
    (hfresh : destFresh destination fs0 = true)
    (hd1 : strStartsWith destination "/" = true)
    (hd2 : strEndsSlash destination = false)
    (hnd1 : strStartsWith p destination = false)
    (hlink0 : islink fs0 p = false)
    (hslash : strStartsWith p "/" = true)
    (hfile0 : isfile fs0 p = true)
    (hunder : compUnder source p = true) :
    Inv source destination fs0 (copy_full source destination false st p).fs ∧
    FSExtends st.fs (copy_full source destination false st p).fs ∧
    (∃ c, lookupE fs0 p = some (Entry.file c) ∧
      lookupE (copy_full source destination false st p).fs (dstOf source destination p) =
        some (Entry.file c)) ∧
    isdir (copy_full source destination false st p).fs (targetOf source destination p) = true := by
  obtain ⟨c, hc0⟩ := (isfile_lookup fs0 p hslash hlink0).mp hfile0
  have hguard : pyJoin (targetOf source destination p) (pyBasename (chunkOf source p)) =
      dstOf source destination p := by
    rw [basename_chunk_eq source p hunder]
    rfl
  have htd : strStartsWith (dstOf source destination p) destination = true :=
    dst_startsWith source destination p hunder hd1 hd2
  have hds : strStartsWith (dstOf source destination p) "/" = true :=
    startsWith_trans _ _ _ htd hd1
  obtain ⟨htne1, htne2⟩ := target_ne_empty source destination p hunder hd1 hd2
  simp only [copy_full, if_true]
  set t := targetOf source destination p with ht
  set st1 : St := (if isdir st.fs t = false
    then { fs := makedirs st.fs t, log := st.log ++ ["Making dirs to " ++ t] }
    else st) with hst1
  have stage1 : Inv source destination fs0 st1.fs ∧ FSExtends st.fs st1.fs ∧
      isdir st1.fs t = true ∧ (∀ q, lookupE st1.fs q = lookupE st.fs q) := by
    by_cases hdir : isdir st.fs t = false
    · rw [hst1, if_pos hdir]
      refine ⟨Inv.makedirs source destination fs0 st.fs inv t, ?_, ?_, ?_⟩
      · exact ⟨rfl, fun k e h => by rw [show lookupE (makedirs st.fs t) k = lookupE st.fs k from rfl]; exact h,
          fun d h => isdir_makedirs_mono _ _ _ h⟩
      · exact isdir_makedirs_self st.fs t htne1 htne2
      · intro q
        rfl
    · rw [hst1, if_neg hdir]
      refine ⟨inv, FSExtends.refl st.fs, ?_, fun _ => rfl⟩
      cases hh : isdir st.fs t with
      | true => rfl
      | false => exact absurd hh hdir
  obtain ⟨inv1, ext1, hdir1, hall1⟩ := stage1
  have hlpst : lookupE st.fs p = some (Entry.file c) := by
    rw [inv.old_eq p hnd1]
    exact hc0
  have hlp1 : lookupE st1.fs p = some (Entry.file c) := by rw [hall1]; exact hlpst
  rw [hguard]
  by_cases hex : isfile st1.fs (dstOf source destination p) = false
  · rw [if_pos hex]
    have hnone : lookupE st1.fs (dstOf source destination p) = none := by
      rcases inv1.new_file _ htd with h | ⟨q, c', _, _, _, h⟩
      · exact h
      · exact absurd (isfile_of_entry st1.fs _ c' hds h) (by rw [hex]; simp)
    have hcopy : ∀ q, lookupE (copy2 st1.fs p t) q =
        if dstOf source destination p = q then some (Entry.file c) else lookupE st1.fs q := by
      intro q
      rw [lookupE_copy2]
      rw [readContent_of_entry st1.fs p c hslash hlp1]
      rfl
    refine ⟨?_, ?_, ⟨c, hc0, ?_⟩, ?_⟩
    · constructor
      · show (copy2 st1.fs p t).cwd = fs0.cwd
        rw [cwd_copy2]
        exact inv1.cwd_eq
      · intro q hq
        show lookupE (copy2 st1.fs p t) q = lookupE fs0 q
        rw [hcopy q, if_neg (by intro h0; rw [← h0] at hq; rw [htd] at hq; cases hq)]
        exact inv1.old_eq q hq
      · intro q hq
        show lookupE (copy2 st1.fs p t) q = none ∨ _
        rw [hcopy q]
        by_cases hdq : dstOf source destination p = q
        · rw [if_pos hdq]
          exact Or.inr ⟨p, c, hunder, hc0, hdq.symm, rfl⟩
        · rw [if_neg hdq]
          exact inv1.new_file q hq
      · intro d hd
        show isdir (copy2 st1.fs p t) d = true
        rw [isdir_copy2]
        exact inv1.dirs_mono d hd
    · refine FSExtends.trans _ _ _ ext1 ⟨rfl, ?_, ?_⟩
      · intro k e h
        show lookupE (copy2 st1.fs p t) k = some e
        rw [hcopy k, if_neg (by intro h0; rw [h0] at hnone; rw [hnone] at h; cases h)]
        exact h
      · intro d h
        show isdir (copy2 st1.fs p t) d = true
        rw [isdir_copy2]
        exact h
    · show lookupE (copy2 st1.fs p t) _ = some (Entry.file c)
      rw [hcopy, if_pos rfl]
    · show isdir (copy2 st1.fs p t) t = true
      rw [isdir_copy2]
      exact hdir1
  · rw [if_neg hex]
    have hfx : isfile st1.fs (dstOf source destination p) = true := by
      cases hh : isfile st1.fs (dstOf source destination p) with
      | true => rfl
      | false => exact absurd hh hex
    have hprov : lookupE st1.fs (dstOf source destination p) = some (Entry.file c) := by
      rcases inv1.new_file _ htd with h | ⟨q, c', hq_under, hq0, hdq, hlook⟩
      · rw [isfile, realpath_fixed st1.fs _ hds (islink_of_none _ _ h), h] at hfx
        cases hfx
      · have hqp : q = p := (dst_inj source destination p q hunder hq_under hd1 hd2 hdq).symm
        rw [hqp] at hq0
        rw [hq0] at hc0
        have hcc : c' = c := by
          injection hc0 with hh
          exact (Entry.file.injEq _ _).mp hh
        rw [hlook, hcc]
    exact ⟨inv1, ext1, ⟨c, hc0, hprov⟩, hdir1⟩

/-! ## Slash preservation along path resolution -/

theorem head_of_pref (x l : List Char) (h : x <+: l) (hx : x ≠ []) : x.head? = l.head? := by
  obtain ⟨t, ht⟩ := h
  cases x with
  | nil => exact absurd rfl hx
  | cons a y => rw [← ht]; rfl

theorem stripTrailing_pref (l : List Char) : stripTrailingSlashes l <+: l := by
  rw [stripTrailingSlashes]
  have h := List.dropWhile_suffix (l := l.reverse) (fun c => c == '/')
  have h2 := List.reverse_prefix.mpr h
  rwa [List.reverse_reverse] at h2

theorem stripTrailing_ne_nil (l : List Char) (h : l.all (fun c => c == '/') = false) :
    stripTrailingSlashes l ≠ [] := by
  intro h0
  rw [stripTrailingSlashes] at h0
  have h1 : l.reverse.dropWhile (fun c => c == '/') = [] := by
    have := congrArg List.reverse h0
    simpa using this
  have h2 := List.dropWhile_eq_nil_iff.mp h1
  have h3 : l.reverse.all (fun c => c == '/') = true := List.all_eq_true.mpr h2
  rw [List.all_reverse] at h3
  rw [h3] at h
  cases h

theorem startsWith_of_head (s : String) (h : s.data.head? = some '/') :
    strStartsWith s "/" = true := by
  rw [startsWith_slash_iff]
  cases hd : s.data with
  | nil => rw [hd] at h; cases h
  | cons a t =>
    rw [hd] at h
    have : a = '/' := by simpa using h
    exact ⟨t, by rw [this]⟩

theorem pyDirname_slash (q : String) (h : strStartsWith q "/" = true) :
    strStartsWith (pyDirname q) "/" = true := by
  obtain ⟨tq, htq⟩ := (startsWith_slash_iff q).mp h
  have hmem : '/' ∈ q.data.reverse := by
    rw [List.mem_reverse, htq]
    exact List.mem_cons_self _ _
  have hne : q.data.reverse.dropWhile (fun c => !(c == '/')) ≠ [] := by
    intro h0
    have h2 := List.dropWhile_eq_nil_iff.mp h0
    have := h2 '/' hmem
    simp at this
  have hsuf := List.dropWhile_suffix (l := q.data.reverse) (fun c => !(c == '/'))
  have hpre : (q.data.reverse.dropWhile (fun c => !(c == '/'))).reverse <+: q.data := by
    have h2 := List.reverse_prefix.mpr hsuf
    rwa [List.reverse_reverse] at h2
  have hrne : (q.data.reverse.dropWhile (fun c => !(c == '/'))).reverse ≠ [] := by
    intro h0
    exact hne (by simpa using congrArg List.reverse h0)
  have hhead : (q.data.reverse.dropWhile (fun c => !(c == '/'))).reverse.head? = some '/' := by
    rw [head_of_pref _ _ hpre hrne, htq]
    rfl
  rw [pyDirname_apply]
  by_cases hall : (q.data.reverse.dropWhile (fun c => !(c == '/'))).all (fun c => c == '/') = true
  · rw [if_pos hall]
    apply startsWith_of_head
    rw [data_mk]
    exact hhead
  · rw [if_neg hall]
    apply startsWith_of_head
    rw [data_mk]
    have hallf : (q.data.reverse.dropWhile (fun c => !(c == '/'))).reverse.all
        (fun c => c == '/') = false := by
      rw [List.all_reverse]
      cases hv : (q.data.reverse.dropWhile (fun c => !(c == '/'))).all (fun c => c == '/') with
      | false => rfl
      | true => exact absurd hv hall
    have hsne := stripTrailing_ne_nil _ hallf
    have hsp := stripTrailing_pref (q.data.reverse.dropWhile (fun c => !(c == '/'))).reverse
    rw [head_of_pref _ _ (hsp.trans hpre) hsne, htq]
    rfl

theorem startsWith_slash_append (a x : String) (h : strStartsWith a "/" = true) :
    strStartsWith (a ++ x) "/" = true := by
  rw [startsWith_slash_iff] at *
  obtain ⟨t, ht⟩ := h
  exact ⟨t ++ x.data, by rw [data_append, ht]; rfl⟩

theorem pyJoin_slash (a b : String) (h : strStartsWith a "/" = true) :
    strStartsWith (pyJoin a b) "/" = true := by
  rw [pyJoin]
  by_cases hb : strStartsWith b "/" = true
  · rw [if_pos hb]
    exact hb
  · rw [if_neg hb]
    by_cases h2 : a = "" ∨ strEndsSlash a = true
    · rw [if_pos (by rcases h2 with h2 | h2 <;> simp [h2])]
      exact startsWith_slash_append a b h
    · rw [if_neg (by intro h3; apply h2; simpa using h3)]
      exact startsWith_slash_append _ _ (startsWith_slash_append a "/" h)

theorem absify_slash (cwd p : String) (h : strStartsWith cwd "/" = true) :
    strStartsWith (absify cwd p) "/" = true := by
  rw [absify]
  by_cases hp : strStartsWith p "/" = true
  · rw [if_pos hp]
    exact hp
  · rw [if_neg hp]
    exact pyJoin_slash cwd p h

theorem resolveLink_slash (fs : FS) :
    ∀ (fuel : Nat) (p : String), strStartsWith p "/" = true →
      strStartsWith (resolveLink fs fuel p) "/" = true := by
  intro fuel
  induction fuel with
  | zero => intro p h; exact h
  | succ n ih =>
    intro p h
    rw [resolveLink_succ]
    cases hl : lookupE fs p with
    | none => exact h
    | some e =>
      cases e with
      | file c => exact h
      | link t => exact ih _ (absify_slash _ _ (pyDirname_slash p h))

theorem realpath_slash (fs : FS) (p : String) (h : strStartsWith fs.cwd "/" = true) :
    strStartsWith (realpath fs p) "/" = true :=
  resolveLink_slash fs _ _ (absify_slash _ _ h)

theorem candPath_slash (fs : FS) (line : String) (h : strStartsWith fs.cwd "/" = true) :
    strStartsWith (candPath fs line) "/" = true :=
  realpath_slash fs _ h

/-! ## One loop iteration -/

theorem handle_file_nonlink (source destination : String) (dryrun : Bool) (st : St) (p : String)
    (h : islink st.fs p = false) :
    handle_file source destination dryrun linkFuel st p =
      copy_full source destination dryrun st p := by
  rw [linkFuel_succ, handle_file_succ, if_neg (by rw [h]; simp)]

theorem processOne_skip (source destination : String) (dryrun : Bool) (st : St) (line : String)
    (h : isfile st.fs (candPathSt st line) = false) :
    processOne source destination dryrun st line =
      { st with log := st.log ++
          [candPathSt st line ++ " isn\x27t a file (" ++ syscallOf line ++ ")"] } := by
  simp only [processOne]
  rw [if_pos h]

theorem processOne_ignore (source destination : String) (dryrun : Bool) (st : St) (line : String)
    (h1 : isfile st.fs (candPathSt st line) = true)
    (h2 : strStartsWith (candPathSt st line) source = false) :
    processOne source destination dryrun st line =
      { st with log := st.log ++
          ["Ignoring " ++ candPathSt st line ++ " (doesn\x27t start with " ++ source ++ ")"] } := by
  simp only [processOne]
  rw [if_neg (by rw [h1]; simp), if_neg (by rw [h2]; simp)]

theorem processOne_handle (source destination : String) (dryrun : Bool) (st : St) (line : String)
    (h1 : isfile st.fs (candPathSt st line) = true)
    (h2 : strStartsWith (candPathSt st line) source = true) :
    processOne source destination dryrun st line =
      handle_file source destination dryrun linkFuel st (candPathSt st line) := by
  simp only [processOne]
  rw [if_neg (by rw [h1]; simp), if_pos h2]

theorem lineOK_spec (source destination : String) (fs0 : FS) (line : String)
    (h : lineOK source destination fs0 line = true) :
    strStartsWith (candPath fs0 line) destination = false ∧
    strStartsWith (realpath fs0 (candPath fs0 line)) destination = false ∧
    islink fs0 (candPath fs0 line) = false ∧
    (isfile fs0 (candPath fs0 line) = true → strStartsWith (candPath fs0 line) source = true →
      compUnder source (candPath fs0 line) = true) := by
  rw [lineOK] at h
  simp only [Bool.and_eq_true, Bool.or_eq_true, Bool.not_eq_true'] at h
  obtain ⟨⟨⟨h1, h2⟩, h3⟩, h4⟩ := h
  refine ⟨h1, h2, h3, ?_⟩
  intro hf hp
  rcases h4 with h4 | h4
  · rw [hf, hp] at h4
    simp at h4
  · exact h4

theorem satLine_mono (source destination : String) (fs0 fs fs' : FS) (line : String)
    (ext : FSExtends fs fs') (h : satLine source destination fs0 fs line) :
    satLine source destination fs0 fs' line := by
  simp only [satLine] at *
  by_cases hc : isfile fs0 (candPath fs0 line) = true ∧
      strStartsWith (candPath fs0 line) source = true
  · rw [if_pos hc] at *
    obtain ⟨⟨c, hl⟩, hd⟩ := h
    exact ⟨⟨c, ext.2.1 _ _ hl⟩, ext.2.2 _ hd⟩
  · rw [if_neg hc]
    trivial

theorem satList_mono (source destination : String) (fs0 fs fs' : FS)
    (ext : FSExtends fs fs') :
    ∀ lines, satList source destination fs0 fs lines →
      satList source destination fs0 fs' lines := by
  intro lines
  induction lines with
  | nil => intro h; trivial
  | cons l rest ih =>
    intro h
    simp only [satList] at *
    by_cases hp : (pySplitWs l).length < 2
    · rw [if_pos hp]
      trivial
    · rw [if_neg hp] at *
      exact ⟨satLine_mono _ _ _ _ _ _ ext h.1, ih h.2⟩

/-- Processing one parsable line with `dryrun = false` preserves the
invariant, only grows the filesystem, and leaves the line's
destination-side obligations satisfied. -/
theorem processOne_run (source destination : String) (fs0 : FS) (st : St) (line : String)
    (inv : Inv source destination fs0 st.fs)
    (hfresh : destFresh destination fs0 = true)
    (hd1 : strStartsWith destination "/" = true)
    (hd2 : strEndsSlash destination = false)
    (hcwd : strStartsWith fs0.cwd "/" = true)
    (hok : lineOK source destination fs0 line = true) :
    Inv source destination fs0 (processOne source destination false st line).fs ∧
    FSExtends st.fs (processOne source destination false st line).fs ∧
    satLine source destination fs0 (processOne source destination false st line).fs line := by
  obtain ⟨hnd1, hnd2, hnl, himp⟩ := lineOK_spec source destination fs0 line hok
  have hstp : candPathSt st line = candPath fs0 line := by
    rw [candPathSt]
    exact candPath_stable source destination fs0 st.fs inv hfresh line
  have hslash : strStartsWith (candPath fs0 line) "/" = true := candPath_slash fs0 line hcwd
  by_cases hf0 : isfile fs0 (candPath fs0 line) = true
  · by_cases hpre : strStartsWith (candPath fs0 line) source = true
    · have hunder := himp hf0 hpre
      have hfst : isfile st.fs (candPathSt st line) = true := by
        rw [hstp, isfile_stable source destination fs0 st.fs inv hfresh _ hnd2]
        exact hf0
      have hpo : processOne source destination false st line =
          copy_full source destination false st (candPath fs0 line) := by
        rw [processOne_handle source destination false st line hfst (by rw [hstp]; exact hpre)]
        rw [hstp]
        apply handle_file_nonlink
        rw [islink_stable source destination fs0 st.fs inv _ hnd1]
        exact hnl
      rw [hpo]
      obtain ⟨inv2, ext2, hex2, hdir2⟩ := copy_full_run source destination fs0 st _ inv hfresh
        hd1 hd2 hnd1 hnl hslash hf0 hunder
      refine ⟨inv2, ext2, ?_⟩
      simp only [satLine]
      rw [if_pos ⟨hf0, hpre⟩]
      obtain ⟨c, _, hc⟩ := hex2
      exact ⟨⟨c, hc⟩, hdir2⟩
    · have hprefalse : strStartsWith (candPath fs0 line) source = false := by
        cases hh : strStartsWith (candPath fs0 line) source with
        | false => rfl
        | true => exact absurd hh hpre
      have hfst : isfile st.fs (candPathSt st line) = true := by
        rw [hstp, isfile_stable source destination fs0 st.fs inv hfresh _ hnd2]
        exact hf0
      rw [processOne_ignore source destination false st line hfst
        (by rw [hstp]; exact hprefalse)]
      refine ⟨inv, FSExtends.refl st.fs, ?_⟩
      simp only [satLine]
      rw [if_neg (by intro hc; exact absurd hc.2 (by rw [hprefalse]; simp))]
      trivial
  · have hf0' : isfile fs0 (candPath fs0 line) = false := by
      cases hh : isfile fs0 (candPath fs0 line) with
      | false => rfl
      | true => exact absurd hh hf0
    have hfst : isfile st.fs (candPathSt st line) = false := by
      rw [hstp, isfile_stable source destination fs0 st.fs inv hfresh _ hnd2]
      exact hf0'
    rw [processOne_skip source destination false st line hfst]
    refine ⟨inv, FSExtends.refl st.fs, ?_⟩
    simp only [satLine]
    rw [if_neg (by intro hc; exact absurd hc.1 (by rw [hf0']; simp))]
    trivial

/-- Processing a parsable line whose obligations are already satisfied
mutates nothing. -/
theorem processOne_noop (source destination : String) (fs0 : FS) (st : St) (line : String)
    (inv : Inv source destination fs0 st.fs)
    (hfresh : destFresh destination fs0 = true)
    (hd1 : strStartsWith destination "/" = true)
    (hd2 : strEndsSlash destination = false)
    (hcwd : strStartsWith fs0.cwd "/" = true)
    (hok : lineOK source destination fs0 line = true)
    (hsat : satLine source destination fs0 st.fs line) :
    (processOne source destination false st line).fs = st.fs := by
  obtain ⟨hnd1, hnd2, hnl, himp⟩ := lineOK_spec source destination fs0 line hok
  have hstp : candPathSt st line = candPath fs0 line := by
    rw [candPathSt]
    exact candPath_stable source destination fs0 st.fs inv hfresh line
  by_cases hf0 : isfile fs0 (candPath fs0 line) = true
  · by_cases hpre : strStartsWith (candPath fs0 line) source = true
    · have hunder := himp hf0 hpre
      simp only [satLine] at hsat
      rw [if_pos ⟨hf0, hpre⟩] at hsat
      obtain ⟨⟨c, hdst⟩, hdirT⟩ := hsat
      have hfst : isfile st.fs (candPathSt st line) = true := by
        rw [hstp, isfile_stable source destination fs0 st.fs inv hfresh _ hnd2]
        exact hf0
      rw [processOne_handle source destination false st line hfst (by rw [hstp]; exact hpre),
          hstp]
      rw [handle_file_nonlink source destination false st _
        (by rw [islink_stable source destination fs0 st.fs inv _ hnd1]; exact hnl)]
      apply copy_full_noop
      · exact hdirT
      · rw [basename_chunk_eq source _ hunder]
        show isfile st.fs (dstOf source destination (candPath fs0 line)) = true
        exact isfile_of_entry st.fs _ c
          (startsWith_trans _ _ _ (dst_startsWith source destination _ hunder hd1 hd2) hd1) hdst
    · have hprefalse : strStartsWith (candPath fs0 line) source = false := by
        cases hh : strStartsWith (candPath fs0 line) source with
        | false => rfl
        | true => exact absurd hh hpre
      have hfst : isfile st.fs (candPathSt st line) = true := by
        rw [hstp, isfile_stable source destination fs0 st.fs inv hfresh _ hnd2]
        exact hf0
      rw [processOne_ignore source destination false st line hfst
        (by rw [hstp]; exact hprefalse)]
  · have hf0' : isfile fs0 (candPath fs0 line) = false := by
      cases hh : isfile fs0 (candPath fs0 line) with
      | false => rfl
      | true => exact absurd hh hf0
    have hfst : isfile st.fs (candPathSt st line) = false := by
      rw [hstp, isfile_stable source destination fs0 st.fs inv hfresh _ hnd2]
      exact hf0'
    rw [processOne_skip source destination false st line hfst]

/-! ## The trace loop -/

theorem reduct_loop_cons (source destination : String) (dr : Bool) (line : String)
    (rest : List String) (st : St) :
    reduct_loop source destination dr (line :: rest) st =
      if (pySplitWs line).length < 2 then { st with log := st.log ++ ["Failed on " ++ line] }
      else reduct_loop source destination dr rest (processOne source destination dr st line) := rfl

/-- Main single-run lemma: a full pass of the trace loop preserves the
invariant, only grows the filesystem, and satisfies every processed
line's obligations. -/
theorem loop_run (source destination : String) (fs0 : FS)
    (hfresh : destFresh destination fs0 = true)
    (hd1 : strStartsWith destination "/" = true)
    (hd2 : strEndsSlash destination = false)
    (hcwd : strStartsWith fs0.cwd "/" = true) :
    ∀ (lines : List String) (st : St), Inv source destination fs0 st.fs →
      (∀ l ∈ lines, lineOK source destination fs0 l = true) →
      Inv source destination fs0 (reduct_loop source destination false lines st).fs ∧
      FSExtends st.fs (reduct_loop source destination false lines st).fs ∧
      satList source destination fs0 (reduct_loop source destination false lines st).fs lines := by
  intro lines
  induction lines with
  | nil =>
    intro st inv hok
    exact ⟨inv, FSExtends.refl st.fs, trivial⟩
  | cons line rest ih =>
    intro st inv hok
    rw [reduct_loop_cons]
    by_cases hp : (pySplitWs line).length < 2
    · rw [if_pos hp]
      refine ⟨inv, FSExtends.refl st.fs, ?_⟩
      simp only [satList]
      rw [if_pos hp]
      trivial
    · rw [if_neg hp]
      have hok1 := hok line (List.mem_cons_self _ _)
      obtain ⟨inv1, ext1, hsat1⟩ := processOne_run source destination fs0 st line inv
        hfresh hd1 hd2 hcwd hok1
      obtain ⟨inv2, ext2, hsat2⟩ := ih (processOne source destination false st line) inv1
        (fun l hl => hok l (List.mem_cons_of_mem _ hl))
      refine ⟨inv2, FSExtends.trans _ _ _ ext1 ext2, ?_⟩
      simp only [satList]
      rw [if_neg hp]
      exact ⟨satLine_mono source destination fs0 _ _ line ext2 hsat1, hsat2⟩

/-- Second-run lemma: over a filesystem already satisfying every line's
obligations, the loop mutates nothing. -/
theorem loop_noop (source destination : String) (fs0 : FS)
    (hfresh : destFresh destination fs0 = true)
    (hd1 : strStartsWith destination "/" = true)
    (hd2 : strEndsSlash destination = false)
    (hcwd : strStartsWith fs0.cwd "/" = true) :
    ∀ (lines : List String) (st : St), Inv source destination fs0 st.fs →
      (∀ l ∈ lines, lineOK source destination fs0 l = true) →
      satList source destination fs0 st.fs lines →
      (reduct_loop source destination false lines st).fs = st.fs := by
  intro lines
  induction lines with
  | nil =>
    intro st _ _ _
    rfl
  | cons line rest ih =>
    intro st inv hok hsat
    rw [reduct_loop_cons]
    by_cases hp : (pySplitWs line).length < 2
    · rw [if_pos hp]
    · rw [if_neg hp]
      simp only [satList] at hsat
      rw [if_neg hp] at hsat
      have hfs : (processOne source destination false st line).fs = st.fs :=
        processOne_noop source destination fs0 st line inv hfresh hd1 hd2 hcwd
          (hok line (List.mem_cons_self _ _)) hsat.1
      have ih2 := ih (processOne source destination false st line) (by rw [hfs]; exact inv)
        (fun l hl => hok l (List.mem_cons_of_mem _ hl)) (by rw [hfs]; exact hsat.2)
      rw [ih2, hfs]

theorem loop_append_parse (source destination : String) (dr : Bool) :
    ∀ (xs ys : List String) (st : St), (∀ l ∈ xs, ¬ (pySplitWs l).length < 2) →
      reduct_loop source destination dr (xs ++ ys) st =
        reduct_loop source destination dr ys (reduct_loop source destination dr xs st) := by
  intro xs
  induction xs with
  | nil => intro ys st h; rfl
  | cons x xs ih =>
    intro ys st h
    rw [List.cons_append, reduct_loop_cons, reduct_loop_cons]
    rw [if_neg (h x (List.mem_cons_self _ _)), if_neg (h x (List.mem_cons_self _ _))]
    exact ih ys _ (fun l hl => h l (List.mem_cons_of_mem _ hl))

/-- The wrapper of `reduct` before the loop: it only ensures the
destination directory, preserving the invariant. -/
theorem reduct_pre (source destination : String) (fs0 : FS) (log0 : List String)
    (args lines : List String)
    (hfresh : destFresh destination fs0 = true)
    (hd1 : strStartsWith destination "/" = true)
    (hd2 : strEndsSlash destination = false) :
    ∃ st1 : St,
      Reduct.reduct source destination false args lines ⟨fs0, log0⟩ =
        reduct_loop source destination false lines st1 ∧
      Inv source destination fs0 st1.fs ∧
      isdir st1.fs destination = true := by
  have hdne : destination ≠ "" := startsWith_nonempty _ _ hd1 (by decide)
  have hdns : destination ≠ "/" := by
    intro h0
    rw [h0] at hd2
    exact absurd hd2 (by decide)
  simp only [Reduct.reduct, if_true]
  by_cases hdir : isdir (⟨fs0, log0⟩ : St).fs destination = false
  · rw [if_pos hdir]
    refine ⟨_, rfl, ?_, ?_⟩
    · exact Inv.makedirs source destination fs0 fs0
        (Inv.init source destination fs0 hfresh) destination
    · exact isdir_makedirs_self fs0 destination hdne hdns
  · rw [if_neg hdir]
    refine ⟨_, rfl, Inv.init source destination fs0 hfresh, ?_⟩
    cases hh : isdir fs0 destination with
    | true => rfl
    | false => exact absurd hh hdir

/-- Full-run lemma for `reduct` with `dryrun = false`. -/
theorem reduct_full_run (source destination : String) (fs0 : FS) (log0 : List String)
    (args lines : List String)
    (hfresh : destFresh destination fs0 = true)
    (hd1 : strStartsWith destination "/" = true)
    (hd2 : strEndsSlash destination = false)
    (hcwd : strStartsWith fs0.cwd "/" = true)
    (hok : ∀ l ∈ lines, lineOK source destination fs0 l = true) :
    Inv source destination fs0
      (Reduct.reduct source destination false args lines ⟨fs0, log0⟩).fs ∧
    satList source destination fs0
      (Reduct.reduct source destination false args lines ⟨fs0, log0⟩).fs lines ∧
    isdir (Reduct.reduct source destination false args lines ⟨fs0, log0⟩).fs destination = true := by
  obtain ⟨st1, heq, inv1, hdir1⟩ := reduct_pre source destination fs0 log0 args lines
    hfresh hd1 hd2
  obtain ⟨inv2, ext2, hsat2⟩ := loop_run source destination fs0 hfresh hd1 hd2 hcwd lines st1 inv1 hok
  rw [heq]
  exact ⟨inv2, hsat2, ext2.2.2 _ hdir1⟩

/-! ## Dry runs perform no filesystem mutation -/

theorem copy_full_dry (source destination : String) (st : St) (p : String) :
    (copy_full source destination true st p).fs = st.fs := by
  have hff : (true = false) = False := by simp
  simp only [copy_full, hff, if_false]
  split <;> split <;> rfl

theorem make_link_dry (source destination : String) (fuel : Nat) (st : St) (p : String)
    (ih : ∀ (st' : St) (q : String), (handle_file source destination true fuel st' q).fs = st'.fs) :
    (make_link source destination true fuel st p).fs = st.fs := by
  have hff : (true = false) = False := by simp
  simp only [make_link, hff, if_false]
  by_cases hc : strStartsWith (realpath st.fs p) source = true
  · rw [if_pos hc]
    split <;> split <;> exact ih _ _
  · rw [if_neg hc]
    split <;> split <;> rfl

theorem handle_file_dry (source destination : String) :
    ∀ (fuel : Nat) (st : St) (p : String),
      (handle_file source destination true fuel st p).fs = st.fs := by
  intro fuel
  induction fuel with
  | zero => intro st p; rfl
  | succ n ih =>
    intro st p
    rw [handle_file_succ]
    split
    · exact make_link_dry source destination n st p ih
    · exact copy_full_dry source destination st p

theorem processOne_dry (source destination : String) (st : St) (line : String) :
    (processOne source destination true st line).fs = st.fs := by
  simp only [processOne]
  split
  · rfl
  · split
    · exact handle_file_dry source destination linkFuel st _
    · rfl

theorem loop_dry (source destination : String) :
    ∀ (lines : List String) (st : St),
      (reduct_loop source destination true lines st).fs = st.fs := by
  intro lines
  induction lines with
  | nil => intro st; rfl
  | cons line rest ih =>
    intro st
    rw [reduct_loop_cons]
    split
    · rfl
    · rw [ih, processOne_dry]

/-! ## Quote extraction on tokens without quotes -/

theorem pySlice_neg_one (s : String) : pySlice s 0 (-1) = String.mk s.data.dropLast := by
  rw [pySlice]
  apply congrArg
  rw [List.drop_zero, List.dropLast_eq_take]
  congr 1
  omega

theorem extract_noquote (s : String) (h : idxOf? '"' s.data = none) :
    extractCandidate s = String.mk s.data.dropLast := by
  have hf : pyFind s '"' = -1 := by rw [pyFind, h]
  have hf2 : pyFind (strDrop s 0) '"' = -1 := by
    rw [pyFind]
    rw [show (strDrop s 0).data = s.data from by rw [strDrop, data_mk, List.drop_zero]]
    rw [h]
  simp only [extractCandidate]
  rw [hf]
  have h1 : ((-1 : Int) + 1).toNat = 0 := rfl
  rw [h1, hf2]
  have h2 : ((0 : Nat) : Int) + -1 = -1 := rfl
  rw [h2]
  exact pySlice_neg_one s

/-! ## Claims -/

/-- Claim C1, counterexample: with source root `/usr/bin`, the trace
line for `/usr/bin2/x` — an existing regular file that is NOT under the
source root as a path component — is nevertheless materialized by
reduct.py's raw `startswith` filter (line 129), creating the file
`/dest/2/x` under the destination root. -/
theorem c1_counterexample :
    compUnder "/usr/bin" "/usr/bin2/x" = false ∧
    isfile fsNearMiss "/usr/bin2/x" = true ∧
    lookupE (Reduct.reduct "/usr/bin" "/dest" false ["tool"] [lineNearMiss]
      ⟨fsNearMiss, []⟩).fs "/dest/2/x" = some (Entry.file "payload") ∧
    strStartsWith "/dest/2/x" "/dest" = true := by decide

/-- Claim C1 (amended): the filter on reduct.py line 129 is a raw
string-prefix test.  A trace line whose resolved candidate path is an
existing regular file is skipped, with an `Ignoring` message, exactly
when the path does not start with `source` as a raw string; so
component near-misses such as `/usr/bin2/x` against `/usr/bin` pass the
filter and are materialized. -/
theorem c1_raw_string_filter (source destination : String) (dryrun : Bool) (line : String)
    (rest : List String) (st : St)
    (hparse : ¬ (pySplitWs line).length < 2)
    (hfile : isfile st.fs (candPathSt st line) = true)
    (hpre : strStartsWith (candPathSt st line) source = false) :
    reduct_loop source destination dryrun (line :: rest) st =
      reduct_loop source destination dryrun rest
        { st with log := st.log ++
            ["Ignoring " ++ candPathSt st line ++ " (doesn\x27t start with " ++ source ++ ")"] } := by
  rw [reduct_loop_cons, if_neg hparse,
      processOne_ignore source destination dryrun st line hfile hpre]

/-- Claim C1 witness: a line for `/etc/passwd` outside source `/s` is
only logged as ignored; the loop moves on with no file created. -/
theorem c1_raw_string_filter_witness :
    (reduct_loop "/s" "/d" false ["7 open(\"/etc/passwd\") = 3"]
      ⟨⟨[("/etc/passwd", Entry.file "pw")], ["/d"], "/"⟩, []⟩).log =
      ["Ignoring /etc/passwd (doesn\x27t start with /s)"] := by
  rw [c1_raw_string_filter "/s" "/d" false "7 open(\"/etc/passwd\") = 3" []
    ⟨⟨[("/etc/passwd", Entry.file "pw")], ["/d"], "/"⟩, []⟩ (by decide) (by decide) (by decide)]
  decide

/-- Claim C2 (code bug), evaluation at the failing input: the trace
opens the symlink `/opt/tool/lib/liba.so` whose target
`/opt/tool/lib/liba.so.1` is a regular file, both under the source
root.  Because reduct.py line 125 resolves the path before the islink
dispatch of line 104, the dispatched path is never a link: `make_link`
is unreachable, the resolved target is copied to `relative(T)`, and no
entry — in particular no symlink — is created at `relative(L)`. -/
theorem c2_code_bug :
    islink fsLink "/opt/tool/lib/liba.so" = true ∧
    candPath fsLink lineLink = "/opt/tool/lib/liba.so.1" ∧
    islink fsLink (candPath fsLink lineLink) = false ∧
    lookupE (Reduct.reduct "/opt/tool" "/dest" false ["t"] [lineLink] ⟨fsLink, []⟩).fs
      "/dest/lib/liba.so" = none ∧
    lookupE (Reduct.reduct "/opt/tool" "/dest" false ["t"] [lineLink] ⟨fsLink, []⟩).fs
      "/dest/lib/liba.so.1" = some (Entry.file "ELF") := by decide

/-- Claim C3 (code bug), evaluation: `tempdir`'s cleanup does run after
normal completion and after a caught tracer failure, but the yield at
line 23 is not inside a try block, so an exception raised by the
consumer of the yielded lines skips `shutil.rmtree` entirely; moreover
the handler's `errno` at line 27 is not among the module's bound names
(`import errno` is missing), so the ENOENT test itself would raise
`NameError` instead of swallowing only "no such file or directory". -/
theorem c3_code_bug :
    tempdir_cleanup_runs ExitPath.success = true ∧
    tempdir_cleanup_runs ExitPath.tracerFailure = true ∧
    tempdir_cleanup_runs ExitPath.consumerException = false ∧
    reduct_module_names.contains cleanup_handler_referenced_name = false := by decide

/-- Claim C4, counterexample: over a trace containing the same file
twice, the dry run mutates nothing but prints a different decision log
than the normal run — the normal run prints `Already exists` for the
duplicate while the dry run, whose existence checks see an unmutated
filesystem, prints `Making dirs` and `Copying` again. -/
theorem c4_counterexample :
    (Reduct.reduct "/src" "/d" true ["cmd"] [lineDup, lineDup] ⟨fsDup, []⟩).fs = fsDup ∧
    (Reduct.reduct "/src" "/d" true ["cmd"] [lineDup, lineDup] ⟨fsDup, []⟩).log ≠
      (Reduct.reduct "/src" "/d" false ["cmd"] [lineDup, lineDup] ⟨fsDup, []⟩).log := by decide

/-- Claim C4 (amended): with dry_run enabled, materialization performs
no filesystem mutation whatsoever — no directory creation, no file
copy, no symlink creation; its decision log, however, can differ from a
normal run's because the existence checks consult the unmutated
filesystem. -/
theorem c4_dry_run_no_mutation (source destination : String) (args lines : List String)
    (st : St) : (Reduct.reduct source destination true args lines st).fs = st.fs := by
  have hff : (true = false) = False := by simp
  simp only [Reduct.reduct, hff, if_false]
  rw [loop_dry]
  split <;> rfl

/-- Claim C5, counterexample: `/usr/bin/2/x` is an existing regular
file under source root `/usr/bin` with content `BBB`, but because the
raw-prefix filter first materializes the near-miss `/usr/bin2/x` at the
same destination path `/dest/2/x`, the existence check skips the
genuine file and the destination content is `AAA`, not `BBB`. -/
theorem c5_counterexample :
    compUnder "/usr/bin" "/usr/bin/2/x" = true ∧
    isfile fsCollide "/usr/bin/2/x" = true ∧
    lookupE fsCollide "/usr/bin/2/x" = some (Entry.file "BBB") ∧
    lookupE (Reduct.reduct "/usr/bin" "/dest" false ["t"] [lineCollideA, lineCollideB]
      ⟨fsCollide, []⟩).fs "/dest/2/x" = some (Entry.file "AAA") ∧
    ¬ (("AAA" : String) = "BBB") := by decide

/-- Claim C5 (amended): round-trip content fidelity.  If the
destination root is an absolute path without trailing slash, the
starting filesystem holds nothing under it, every trace line's resolved
candidate stays clear of the destination tree and — when handled — lies
component-exactly under the source root, and every line parses, then
for each traced existing regular file P under the source root the run
leaves `destination ++ "/" ++ relative(P)` holding exactly P's
content. -/
theorem c5_content_fidelity (source destination : String) (args lines : List String)
    (fs0 : FS) (log0 : List String)
    (hd1 : strStartsWith destination "/" = true)
    (hd2 : strEndsSlash destination = false)
    (hcwd : strStartsWith fs0.cwd "/" = true)
    (hfresh : destFresh destination fs0 = true)
    (hok : ∀ l ∈ lines, lineOK source destination fs0 l = true)
    (hparse : ∀ l ∈ lines, ¬ (pySplitWs l).length < 2)
    (line : String) (hline : line ∈ lines)
    (hfile : isfile fs0 (candPath fs0 line) = true)
    (hunder : compUnder source (candPath fs0 line) = true) :
    ∃ c, lookupE fs0 (candPath fs0 line) = some (Entry.file c) ∧
      lookupE (Reduct.reduct source destination false args lines ⟨fs0, log0⟩).fs
        (destination ++ "/" ++ strDrop (candPath fs0 line) (source.length + 1)) =
        some (Entry.file c) := by
  obtain ⟨pre, post, hsplit⟩ := List.append_of_mem hline
  obtain ⟨st1, heq, inv1, hdir1⟩ := reduct_pre source destination fs0 log0 args lines
    hfresh hd1 hd2
  rw [heq, hsplit]
  rw [loop_append_parse source destination false pre (line :: post) st1
    (fun l hl => hparse l (by rw [hsplit]; exact List.mem_append_left _ hl))]
  obtain ⟨inv2, ext2, hsat2⟩ := loop_run source destination fs0 hfresh hd1 hd2 hcwd pre st1 inv1
    (fun l hl => hok l (by rw [hsplit]; exact List.mem_append_left _ hl))
  set stB := reduct_loop source destination false pre st1 with hstB
  rw [reduct_loop_cons, if_neg (hparse line hline)]
  have hokl := hok line hline
  obtain ⟨hnd1, hnd2, hnl, _⟩ := lineOK_spec source destination fs0 line hokl
  have hslash := candPath_slash fs0 line hcwd
  have hstp : candPathSt stB line = candPath fs0 line := by
    rw [candPathSt]
    exact candPath_stable source destination fs0 stB.fs inv2 hfresh line
  have hpre2 : strStartsWith (candPath fs0 line) source = true :=
    compUnder_startsWith _ _ hunder
  have hfstB : isfile stB.fs (candPathSt stB line) = true := by
    rw [hstp, isfile_stable source destination fs0 stB.fs inv2 hfresh _ hnd2]
    exact hfile
  rw [processOne_handle source destination false stB line hfstB (by rw [hstp]; exact hpre2),
      hstp]
  rw [handle_file_nonlink source destination false stB _
    (by rw [islink_stable source destination fs0 stB.fs inv2 _ hnd1]; exact hnl)]
  obtain ⟨inv3, ext3, ⟨c, hc0, hcdst⟩, _⟩ := copy_full_run source destination fs0 stB _ inv2
    hfresh hd1 hd2 hnd1 hnl hslash hfile hunder
  obtain ⟨inv4, ext4, _⟩ := loop_run source destination fs0 hfresh hd1 hd2 hcwd post _ inv3
    (fun l hl => hok l (by
      rw [hsplit]
      exact List.mem_append_right _ (List.mem_cons_of_mem _ hl)))
  refine ⟨c, hc0, ?_⟩
  rw [← (dst_formula source destination _ hunder hd1 hd2).1]
  exact ext4.2.1 _ _ hcdst

/-- Claim C5 witness: the specification's end-to-end scenario —
`/opt/tool/bin/run` exists, is traced, and materializes at
`/dest/bin/run` with identical content. -/
theorem c5_content_fidelity_witness :
    lookupE (Reduct.reduct "/opt/tool" "/dest" false ["cmd"] [lineRun] ⟨fsRun, []⟩).fs
      "/dest/bin/run" = some (Entry.file "ELF") := by
  have h := c5_content_fidelity "/opt/tool" "/dest" ["cmd"] [lineRun] fsRun []
    (by decide) (by decide) (by decide) (by decide) (by decide) (by decide)
    lineRun (by decide) (by decide) (by decide)
  have e2 : ("/dest" ++ "/" ++ strDrop (candPath fsRun lineRun) ("/opt/tool".length + 1)) =
      "/dest/bin/run" := by decide
  rw [e2] at h
  have e1 : candPath fsRun lineRun = "/opt/tool/bin/run" := by decide
  rw [e1] at h
  obtain ⟨c, hc1, hc2⟩ := h
  have hc3 : lookupE fsRun "/opt/tool/bin/run" = some (Entry.file "ELF") := by decide
  rw [hc1] at hc3
  injection hc3 with hh
  injection hh with hh2
  rw [hh2] at hc2
  exact hc2

/-- Claim C6, counterexample: with source `/usr/bin` and the traced
file `/usr/binx`, the existence check of `copy_full` looks at
`/dest/x` (basename of the chunk) while the copy writes `/dest/binx`
(basename of the source file), so a second run over the same trace
fails to detect the already-copied file and copies it again: the
filesystem state differs after the second run. -/
theorem c6_counterexample :
    lookupE (Reduct.reduct "/usr/bin" "/dest" false ["t"] [lineBoundary]
      ⟨fsBoundary, []⟩).fs "/dest/binx" = some (Entry.file "Z") ∧
    ¬ ((Reduct.reduct "/usr/bin" "/dest" false ["t"] [lineBoundary]
        (Reduct.reduct "/usr/bin" "/dest" false ["t"] [lineBoundary] ⟨fsBoundary, []⟩)).fs =
      (Reduct.reduct "/usr/bin" "/dest" false ["t"] [lineBoundary] ⟨fsBoundary, []⟩).fs) := by
  decide

/-- Claim C6 (amended): idempotence holds under the same side
conditions as content fidelity — destination root absolute without
trailing slash, initially fresh, trace lines clear of the destination
tree and component-exact under the source root when handled: a second
run over the same trace against the same destination changes the
filesystem in no way (every existence check short-circuits, so no
directory creation, copy, or link creation occurs). -/
theorem c6_idempotent (source destination : String) (args lines : List String)
    (fs0 : FS) (log0 : List String)
    (hd1 : strStartsWith destination "/" = true)
    (hd2 : strEndsSlash destination = false)
    (hcwd : strStartsWith fs0.cwd "/" = true)
    (hfresh : destFresh destination fs0 = true)
    (hok : ∀ l ∈ lines, lineOK source destination fs0 l = true) :
    (Reduct.reduct source destination false args lines
        (Reduct.reduct source destination false args lines ⟨fs0, log0⟩)).fs =
      (Reduct.reduct source destination false args lines ⟨fs0, log0⟩).fs := by
  obtain ⟨invF, satF, isdirF⟩ := reduct_full_run source destination fs0 log0 args lines
    hfresh hd1 hd2 hcwd hok
  set r1 := Reduct.reduct source destination false args lines ⟨fs0, log0⟩ with hr1
  have hwrap : Reduct.reduct source destination false args lines r1 =
      reduct_loop source destination false lines
        { r1 with log := r1.log ++ ["Executing: " ++ joinSpace args] } := by
    simp only [Reduct.reduct, if_true]
    rw [if_neg (by rw [isdirF]; simp)]
  rw [hwrap]
  exact loop_noop source destination fs0 hfresh hd1 hd2 hcwd lines _ invF hok satF

/-- Claim C6 witness: running the materializer twice over the
specification's end-to-end scenario leaves the filesystem of the first
run untouched. -/
theorem c6_idempotent_witness :
    (Reduct.reduct "/opt/tool" "/dest" false ["cmd"] [lineRun]
        (Reduct.reduct "/opt/tool" "/dest" false ["cmd"] [lineRun] ⟨fsRun, []⟩)).fs =
      (Reduct.reduct "/opt/tool" "/dest" false ["cmd"] [lineRun] ⟨fsRun, []⟩).fs :=
  c6_idempotent "/opt/tool" "/dest" ["cmd"] [lineRun] fsRun []
    (by decide) (by decide) (by decide) (by decide) (by decide)

/-- Claim C7 (confirmed): a trace line with fewer than two whitespace
tokens makes `line.split()[1]` raise IndexError, which reduct.py
lines 119-121 catch, log as `Failed on ...`, and convert to a break:
the loop's result does not depend on the remaining lines, so nothing
after the malformed line is processed and no error escapes. -/
theorem c7_malformed_stops (source destination : String) (dryrun : Bool) (line : String)
    (rest : List String) (st : St) (h : (pySplitWs line).length < 2) :
    reduct_loop source destination dryrun (line :: rest) st =
      { st with log := st.log ++ ["Failed on " ++ line] } := by
  rw [reduct_loop_cons, if_pos h]

/-- Claim C7 witness: a one-token line stops processing; the valid line
after it is never processed. -/
theorem c7_malformed_stops_witness :
    reduct_loop "/opt/tool" "/dest" false ["trailing", lineRun] ⟨fsRun, []⟩ =
      ⟨fsRun, ["Failed on trailing"]⟩ := by
  rw [c7_malformed_stops "/opt/tool" "/dest" false "trailing" [lineRun] ⟨fsRun, []⟩ (by decide)]
  decide

/-- Claim C8 (confirmed): when the tracer exits non-zero,
`subprocess.check_call` raises, `strace_iter` catches the error and
prints its repr (lines 41-44), and the partial log is still read and
its lines yielded unchanged to the materializer. -/
theorem c8_tracer_failure (t : TracerRun) (source destination : String) (dryrun : Bool)
    (args : List String) (st : St) (h : ¬ t.exitCode = 0) :
    (strace_iter t).1 = ["CalledProcessError(" ++ toString t.exitCode ++ ")"] ∧
    (strace_iter t).2 = t.logLines ∧
    reduct_traced source destination dryrun args t st =
      Reduct.reduct source destination dryrun args t.logLines st := by
  have hcc : check_call t.exitCode =
      Except.error ("CalledProcessError(" ++ toString t.exitCode ++ ")") := by
    rw [check_call, if_neg h]
  refine ⟨?_, ?_, ?_⟩
  · rw [strace_iter, hcc]
  · rw [strace_iter, hcc]
  · rw [reduct_traced, strace_iter, hcc]

/-- Claim C8 witness: exit code 2, a one-line partial log. -/
theorem c8_tracer_failure_witness :
    (strace_iter ⟨2, ["line1"]⟩).1 = ["CalledProcessError(2)"] ∧
    (strace_iter ⟨2, ["line1"]⟩).2 = ["line1"] ∧
    reduct_traced "/s" "/d" false ["c"] ⟨2, ["line1"]⟩ ⟨fsMissing, []⟩ =
      Reduct.reduct "/s" "/d" false ["c"] ["line1"] ⟨fsMissing, []⟩ := by
  have h := c8_tracer_failure ⟨2, ["line1"]⟩ "/s" "/d" false ["c"] ⟨fsMissing, []⟩ (by decide)
  exact ⟨h.1.trans (by decide), h.2.1, h.2.2⟩

/-- Claim C9, counterexample: a trace line whose candidate does not
resolve to an existing file is skipped and the run continues with the
filesystem untouched, but NOT silently: the run prints a
"isn't a file" diagnostic for it. -/
theorem c9_counterexample :
    (Reduct.reduct "/s" "/d" false ["cmd"] [lineMissing] ⟨fsMissing, []⟩).fs = fsMissing ∧
    (Reduct.reduct "/s" "/d" false ["cmd"] [lineMissing] ⟨fsMissing, []⟩).log =
      ["Executing: cmd", "/nope isn\x27t a file (open(\"/nope\",)"] ∧
    ¬ ((Reduct.reduct "/s" "/d" false ["cmd"] [lineMissing] ⟨fsMissing, []⟩).log =
      ["Executing: cmd"]) := by decide

/-- Claim C9 (amended): a trace line whose candidate path does not
resolve to an existing regular file is skipped — with a logged
"isn't a file" diagnostic rather than silently — the run does not
abort, and the remaining trace lines are still processed. -/
theorem c9_skip_continue (source destination : String) (dryrun : Bool) (line : String)
    (rest : List String) (st : St)
    (hparse : ¬ (pySplitWs line).length < 2)
    (hfile : isfile st.fs (candPathSt st line) = false) :
    reduct_loop source destination dryrun (line :: rest) st =
      reduct_loop source destination dryrun rest
        { st with log := st.log ++
            [candPathSt st line ++ " isn\x27t a file (" ++ syscallOf line ++ ")"] } := by
  rw [reduct_loop_cons, if_neg hparse, processOne_skip source destination dryrun st line hfile]

/-- Claim C9 witness: a now-missing path is skipped and the valid line
after it is still fed to the loop. -/
theorem c9_skip_continue_witness :
    reduct_loop "/opt/tool" "/dest" false [lineMissing, lineRun] ⟨fsRun, []⟩ =
      reduct_loop "/opt/tool" "/dest" false [lineRun]
        ⟨fsRun, ["/nope isn\x27t a file (open(\"/nope\",)"]⟩ := by
  rw [c9_skip_continue "/opt/tool" "/dest" false lineMissing [lineRun] ⟨fsRun, []⟩
    (by decide) (by decide)]
  rfl

/-- Claim C10 (confirmed): on a parsable line whose second token holds
no double quote, both `str.find` calls return -1, the slice indices
degenerate to `[0:-1]`, and extraction yields the token minus its final
character without raising; the loop then continues with the next lines,
the candidate having gone through the ordinary regular-file check. -/
theorem c10_no_quote_token (source destination : String) (dryrun : Bool) (line : String)
    (rest : List String) (st : St)
    (hparse : ¬ (pySplitWs line).length < 2)
    (hq : idxOf? '"' (syscallOf line).data = none) :
    extractCandidate (syscallOf line) = String.mk (syscallOf line).data.dropLast ∧
    reduct_loop source destination dryrun (line :: rest) st =
      reduct_loop source destination dryrun rest
        (processOne source destination dryrun st line) :=
  ⟨extract_noquote _ hq, by rw [reduct_loop_cons, if_neg hparse]⟩

/-- Claim C10 witness: the quoteless token `abc` extracts to `ab` and
processing continues. -/
theorem c10_no_quote_token_witness :
    extractCandidate (syscallOf "123 abc def") =
      String.mk (syscallOf "123 abc def").data.dropLast ∧
    reduct_loop "/s" "/d" false ["123 abc def"] ⟨fsMissing, []⟩ =
      reduct_loop "/s" "/d" false []
        (processOne "/s" "/d" false ⟨fsMissing, []⟩ "123 abc def") :=
  c10_no_quote_token "/s" "/d" false "123 abc def" [] ⟨fsMissing, []⟩ (by decide) (by decide)

end Reduct


